import Mathlib

/-!
Verification of the raster alignment / temporal statistics pipeline of the
`ade_modelo_agricola` repository (scripts `11_NDVI_inta_verano.py`,
`Coronel Suarez/11_NDVI_coronel_suarez_verano.py`, `MWM_filter/mwm_3_arroyos.py`).

Modelling conventions:
* A raster band is a row-major grid `List (List (Option ℚ))`; `none` models a
  missing sample (NaN / nodata already substituted, as the scripts do right
  after reading), `some q` a valid sample.  Rational numbers stand for the
  float32 samples; the claims under verification are about masking, shapes and
  control flow, not float rounding.
* Integer category rasters (majority filter) are `List (List ℤ)`.
* Python `exit(1)` is modelled by `Except` with an `Abort` payload carrying the
  exit code and the printed diagnostic.
-/

/-- A raster band: rows of optional samples (`none` = missing / NaN). -/
abbrev Banda := List (List (Option ℚ))

/-- Number of columns of a row-major grid, as numpy reports it
(length of the first row; the scripts only build rectangular arrays). -/
def ancho {α : Type} (data : List (List α)) : ℕ :=
  (data.head?.getD []).length

/-- Number of rows of a grid. -/
def alto {α : Type} (data : List (List α)) : ℕ :=
  data.length

/-- Sample of a band at row `i`, column `j`; out-of-range lookups give `none`,
matching the convention that everything outside the array is missing. -/
def celda (data : Banda) (i j : ℕ) : Option ℚ :=
  ((data[i]?.getD [])[j]?).getD none

/-- `filas_validas` entry of `11_NDVI_inta_verano.py` line 127: a row is valid
iff not all of its samples are NaN, i.e. it has at least one valid sample. -/
def filaValida (fila : List (Option ℚ)) : Bool :=
  fila.any (fun c => c.isSome)

/-- `cols_validas` entry (line 128): column `j` is valid iff some row has a
valid sample at column `j`. -/
def columnaValida (data : Banda) (j : ℕ) : Bool :=
  data.any (fun fila => ((fila[j]?).getD none).isSome)

/-- `np.argmax` on a boolean vector: index of the first `true`, and `0` when
every entry is `false` (numpy returns the first index of the maximum value). -/
def np_argmax (l : List Bool) : ℕ :=
  if l.any id then l.findIdx id else 0

/-- The per-raster valid window record built at lines 137-144 of
`11_NDVI_inta_verano.py`: row/column start and one-past-the-end indices. -/
structure AreaValida where
  fila_inicio : ℕ
  fila_fin : ℕ
  col_inicio : ℕ
  col_fin : ℕ
deriving Repr, DecidableEq

/-- `width = col_fin - col_inicio` (computed in ℤ: the script works with
numpy/python ints, where the difference can be negative). -/
def AreaValida.width (a : AreaValida) : ℤ :=
  (a.col_fin : ℤ) - (a.col_inicio : ℤ)

/-- `height = fila_fin - fila_inicio` (in ℤ, can be negative). -/
def AreaValida.height (a : AreaValida) : ℤ :=
  (a.fila_fin : ℤ) - (a.fila_inicio : ℤ)

/-- Valid-window detection for one raster, lines 126-147 of
`11_NDVI_inta_verano.py`: first/last valid row and column via `np.argmax`
over the validity vectors (using the reversed vector for the end index);
`none` when there is no valid row or no valid column. -/
def areas_validas (data : Banda) : Option AreaValida :=
  let filas_validas := data.map filaValida
  let cols_validas := (List.range (ancho data)).map (columnaValida data)
  if filas_validas.any id && cols_validas.any id then
    some { fila_inicio := np_argmax filas_validas
           fila_fin := filas_validas.length - np_argmax filas_validas.reverse
           col_inicio := np_argmax cols_validas
           col_fin := cols_validas.length - np_argmax cols_validas.reverse }
  else none

/-- `recorte_comun`, lines 156-165 of `11_NDVI_inta_verano.py`: the common
window is the componentwise max of the starts and min of the ends of all
per-raster windows (`none` for an empty list, which the script rules out
before reaching this point). -/
def recorte_comun (areas : List AreaValida) : Option AreaValida :=
  match (areas.map AreaValida.fila_inicio).max?, (areas.map AreaValida.fila_fin).min?,
        (areas.map AreaValida.col_inicio).max?, (areas.map AreaValida.col_fin).min? with
  | some fi, some ff, some ci, some cf =>
      some { fila_inicio := fi, fila_fin := ff, col_inicio := ci, col_fin := cf }
  | _, _, _, _ => none

/-- An aborted run: Python `exit` code plus the diagnostic printed before it. -/
structure Abort where
  codigo : ℕ
  mensaje : String
deriving Repr, DecidableEq

/-- Lines 149-165 of `11_NDVI_inta_verano.py`: filter out rasters without valid
data, abort (`exit(1)`) when none remain, otherwise compute the common window.
This is the only check between the window computation and its use as the read
window at lines 205-211 — there is no guard on `end <= start`. -/
def detectarRecorteComun (areas : List (Option AreaValida)) : Except Abort AreaValida :=
  match recorte_comun areas.reduceOption with
  | some r => .ok r
  | none => .error { codigo := 1
                     mensaje := "[ERROR] No se encontraron areas validas en los rasters NDVI." }

/-! Generic helper lemmas about `List.foldl max` / `List.foldl min`. -/

theorem foldl_max_eq_or_mem {α : Type} [LinearOrder α] (a : α) (l : List α) :
    l.foldl max a = a ∨ l.foldl max a ∈ l := by
  induction l generalizing a with
  | nil => exact Or.inl rfl
  | cons x xs ih =>
    rcases ih (max a x) with h | h
    · rcases max_choice a x with hm | hm
      · exact Or.inl (by rw [List.foldl_cons, h, hm])
      · exact Or.inr (by rw [List.foldl_cons, h, hm]; exact List.mem_cons_self x xs)
    · exact Or.inr (List.mem_cons_of_mem x h)

theorem le_foldl_max {α : Type} [LinearOrder α] (a : α) (l : List α) :
    a ≤ l.foldl max a ∧ ∀ b ∈ l, b ≤ l.foldl max a := by
  induction l generalizing a with
  | nil => exact ⟨le_refl a, by simp⟩
  | cons x xs ih =>
    obtain ⟨h1, h2⟩ := ih (max a x)
    refine ⟨le_trans (le_max_left a x) h1, ?_⟩
    intro b hb
    rcases List.mem_cons.mp hb with rfl | hb
    · exact le_trans (le_max_right a b) h1
    · exact h2 b hb

theorem foldl_min_eq_or_mem {α : Type} [LinearOrder α] (a : α) (l : List α) :
    l.foldl min a = a ∨ l.foldl min a ∈ l := by
  induction l generalizing a with
  | nil => exact Or.inl rfl
  | cons x xs ih =>
    rcases ih (min a x) with h | h
    · rcases min_choice a x with hm | hm
      · exact Or.inl (by rw [List.foldl_cons, h, hm])
      · exact Or.inr (by rw [List.foldl_cons, h, hm]; exact List.mem_cons_self x xs)
    · exact Or.inr (List.mem_cons_of_mem x h)

theorem foldl_min_le {α : Type} [LinearOrder α] (a : α) (l : List α) :
    l.foldl min a ≤ a ∧ ∀ b ∈ l, l.foldl min a ≤ b := by
  induction l generalizing a with
  | nil => exact ⟨le_refl a, by simp⟩
  | cons x xs ih =>
    obtain ⟨h1, h2⟩ := ih (min a x)
    refine ⟨le_trans h1 (min_le_left a x), ?_⟩
    intro b hb
    rcases List.mem_cons.mp hb with rfl | hb
    · exact le_trans h1 (min_le_right a b)
    · exact h2 b hb

theorem max?_spec {α : Type} [LinearOrder α] (x : α) (l : List α) :
    ∃ m, (x :: l).max? = some m ∧ m ∈ x :: l ∧ ∀ b ∈ x :: l, b ≤ m := by
  refine ⟨l.foldl max x, rfl, ?_, ?_⟩
  · rcases foldl_max_eq_or_mem x l with h | h
    · rw [h]; exact List.mem_cons_self x l
    · exact List.mem_cons_of_mem x h
  · intro b hb
    rcases List.mem_cons.mp hb with rfl | hb
    · exact (le_foldl_max b l).1
    · exact (le_foldl_max x l).2 b hb

theorem min?_spec {α : Type} [LinearOrder α] (x : α) (l : List α) :
    ∃ m, (x :: l).min? = some m ∧ m ∈ x :: l ∧ ∀ b ∈ x :: l, m ≤ b := by
  refine ⟨l.foldl min x, rfl, ?_, ?_⟩
  · rcases foldl_min_eq_or_mem x l with h | h
    · rw [h]; exact List.mem_cons_self x l
    · exact List.mem_cons_of_mem x h
  · intro b hb
    rcases List.mem_cons.mp hb with rfl | hb
    · exact (foldl_min_le b l).1
    · exact (foldl_min_le x l).2 b hb

/-- C1: for every non-empty list of per-raster valid windows, `recorte_comun`
returns the window whose row start is the maximum of all row starts, row end
the minimum of all row ends, column start the maximum of all column starts,
and column end the minimum of all column ends (each stated as: the component
is attained by some input window and bounds all of them). -/
theorem recorte_comun_es_interseccion (areas : List AreaValida) (h : areas ≠ []) :
    ∃ w, recorte_comun areas = some w ∧
      (w.fila_inicio ∈ areas.map AreaValida.fila_inicio ∧
        ∀ a ∈ areas, a.fila_inicio ≤ w.fila_inicio) ∧
      (w.fila_fin ∈ areas.map AreaValida.fila_fin ∧
        ∀ a ∈ areas, w.fila_fin ≤ a.fila_fin) ∧
      (w.col_inicio ∈ areas.map AreaValida.col_inicio ∧
        ∀ a ∈ areas, a.col_inicio ≤ w.col_inicio) ∧
      (w.col_fin ∈ areas.map AreaValida.col_fin ∧
        ∀ a ∈ areas, w.col_fin ≤ a.col_fin) := by
  cases areas with
  | nil => exact absurd rfl h
  | cons a rest =>
    obtain ⟨m1, hm1, hmem1, hle1⟩ := max?_spec a.fila_inicio (rest.map AreaValida.fila_inicio)
    obtain ⟨m2, hm2, hmem2, hle2⟩ := min?_spec a.fila_fin (rest.map AreaValida.fila_fin)
    obtain ⟨m3, hm3, hmem3, hle3⟩ := max?_spec a.col_inicio (rest.map AreaValida.col_inicio)
    obtain ⟨m4, hm4, hmem4, hle4⟩ := min?_spec a.col_fin (rest.map AreaValida.col_fin)
    refine ⟨⟨m1, m2, m3, m4⟩, ?_, ⟨hmem1, ?_⟩, ⟨hmem2, ?_⟩, ⟨hmem3, ?_⟩, ⟨hmem4, ?_⟩⟩
    · simp only [recorte_comun, List.map_cons] at *
      rw [hm1, hm2, hm3, hm4]
    · intro b hb
      exact hle1 b.fila_inicio (by simpa using List.mem_map_of_mem AreaValida.fila_inicio hb)
    · intro b hb
      exact hle2 b.fila_fin (by simpa using List.mem_map_of_mem AreaValida.fila_fin hb)
    · intro b hb
      exact hle3 b.col_inicio (by simpa using List.mem_map_of_mem AreaValida.col_inicio hb)
    · intro b hb
      exact hle4 b.col_fin (by simpa using List.mem_map_of_mem AreaValida.col_fin hb)

/-- Witness for C1 at a concrete pair of windows. -/
theorem recorte_comun_es_interseccion_witness :
    ([⟨0, 4, 1, 6⟩, ⟨2, 3, 0, 5⟩] : List AreaValida) ≠ [] ∧
      ∃ w, recorte_comun [⟨0, 4, 1, 6⟩, ⟨2, 3, 0, 5⟩] = some w ∧
        (w.fila_inicio ∈ ([⟨0, 4, 1, 6⟩, ⟨2, 3, 0, 5⟩] : List AreaValida).map AreaValida.fila_inicio ∧
          ∀ a ∈ ([⟨0, 4, 1, 6⟩, ⟨2, 3, 0, 5⟩] : List AreaValida), a.fila_inicio ≤ w.fila_inicio) ∧
        (w.fila_fin ∈ ([⟨0, 4, 1, 6⟩, ⟨2, 3, 0, 5⟩] : List AreaValida).map AreaValida.fila_fin ∧
          ∀ a ∈ ([⟨0, 4, 1, 6⟩, ⟨2, 3, 0, 5⟩] : List AreaValida), w.fila_fin ≤ a.fila_fin) ∧
        (w.col_inicio ∈ ([⟨0, 4, 1, 6⟩, ⟨2, 3, 0, 5⟩] : List AreaValida).map AreaValida.col_inicio ∧
          ∀ a ∈ ([⟨0, 4, 1, 6⟩, ⟨2, 3, 0, 5⟩] : List AreaValida), a.col_inicio ≤ w.col_inicio) ∧
        (w.col_fin ∈ ([⟨0, 4, 1, 6⟩, ⟨2, 3, 0, 5⟩] : List AreaValida).map AreaValida.col_fin ∧
          ∀ a ∈ ([⟨0, 4, 1, 6⟩, ⟨2, 3, 0, 5⟩] : List AreaValida), w.col_fin ≤ a.col_fin) :=
  ⟨by decide, recorte_comun_es_interseccion [⟨0, 4, 1, 6⟩, ⟨2, 3, 0, 5⟩] (by decide)⟩

/-- C5: disjoint valid windows (rows `[0,2)` vs `[3,5)`) yield a degenerate
common window with negative height, yet the pipeline step accepts it
(`Except.ok`, not an abort): the script has no `end <= start` guard between
`recorte_comun` (lines 150-165) and the `Window(...)` read at lines 205-211. -/
theorem recorte_degenerado_no_abortado :
    detectarRecorteComun [some ⟨0, 2, 0, 5⟩, some ⟨3, 5, 0, 5⟩] =
        .ok ⟨3, 2, 0, 5⟩ ∧
      AreaValida.height ⟨3, 2, 0, 5⟩ ≤ 0 := by
  constructor
  · rfl
  · decide

/-! Helper lemmas for the valid-window detector. -/

theorem celda_oob_fila (data : Banda) (i j : ℕ) (h : data.length ≤ i) :
    celda data i j = none := by
  simp [celda, List.getElem?_eq_none h]

theorem celda_de_fila (data : Banda) (i j : ℕ) (fila : List (Option ℚ))
    (hf : data[i]? = some fila) : celda data i j = fila[j]?.getD none := by
  simp [celda, hf]

theorem celda_isSome_acota (data : Banda) (i j : ℕ)
    (h : (celda data i j).isSome) :
    ∃ fila, data[i]? = some fila ∧ j < fila.length ∧ fila[j]?.getD none = celda data i j := by
  by_cases hi : i < data.length
  · obtain ⟨fila, hf⟩ : ∃ fila, data[i]? = some fila :=
      ⟨data[i], List.getElem?_eq_getElem hi⟩
    refine ⟨fila, hf, ?_, (celda_de_fila data i j fila hf).symm⟩
    by_contra hj
    rw [celda_de_fila data i j fila hf, List.getElem?_eq_none (le_of_not_lt hj)] at h
    simp at h
  · rw [celda_oob_fila data i j (le_of_not_lt hi)] at h
    simp at h

theorem filaValida_iff (data : Banda) (i : ℕ) (fila : List (Option ℚ))
    (hf : data[i]? = some fila) :
    filaValida fila = true ↔ ∃ j, (celda data i j).isSome := by
  constructor
  · intro h
    obtain ⟨c, hc, hcs⟩ := List.any_eq_true.mp h
    obtain ⟨j, hj⟩ := List.mem_iff_getElem?.mp hc
    exact ⟨j, by rw [celda_de_fila data i j fila hf, hj]; exact hcs⟩
  · rintro ⟨j, hj⟩
    obtain ⟨fila2, hf2, hjl, hcel⟩ := celda_isSome_acota data i j hj
    rw [hf] at hf2
    obtain rfl := Option.some_injective _ hf2
    refine List.any_eq_true.mpr ⟨celda data i j, ?_, hj⟩
    rw [← hcel]
    obtain ⟨c, hc⟩ : ∃ c, fila[j]? = some c := ⟨fila[j], List.getElem?_eq_getElem hjl⟩
    rw [hc]
    simpa [hc] using List.mem_iff_getElem?.mpr ⟨j, hc⟩

theorem filaValida_falsa (data : Banda) (i : ℕ) (fila : List (Option ℚ))
    (hf : data[i]? = some fila) (h : filaValida fila = false) :
    ∀ j, celda data i j = none := by
  intro j
  rw [celda_de_fila data i j fila hf]
  cases hj : fila[j]? with
  | none => rfl
  | some c =>
    have hc : c ∈ fila := List.mem_iff_getElem?.mpr ⟨j, hj⟩
    have := List.any_eq_false.mp h c hc
    simp only [Option.getD_some]
    cases c with
    | none => rfl
    | some q => simp at this

theorem columnaValida_iff (data : Banda) (j : ℕ) :
    columnaValida data j = true ↔ ∃ i, (celda data i j).isSome := by
  constructor
  · intro h
    obtain ⟨fila, hfm, hfs⟩ := List.any_eq_true.mp h
    obtain ⟨i, hi⟩ := List.mem_iff_getElem?.mp hfm
    exact ⟨i, by rw [celda_de_fila data i j fila hi]; exact hfs⟩
  · rintro ⟨i, hi⟩
    obtain ⟨fila, hf, hjl, hcel⟩ := celda_isSome_acota data i j hi
    refine List.any_eq_true.mpr ⟨fila, List.mem_iff_getElem?.mpr ⟨i, hf⟩, ?_⟩
    rw [hcel]
    exact hi

theorem columnaValida_falsa (data : Banda) (j : ℕ)
    (h : columnaValida data j = false) : ∀ i, celda data i j = none := by
  intro i
  cases hc : celda data i j with
  | none => rfl
  | some q =>
    have : (celda data i j).isSome := by rw [hc]; rfl
    have := (columnaValida_iff data j).mpr ⟨i, this⟩
    rw [h] at this
    exact absurd this (by simp)

theorem celda_none_de_ancho (data : Banda)
    (hrect : ∀ fila ∈ data, fila.length = ancho data)
    (i j : ℕ) (hj : ancho data ≤ j) : celda data i j = none := by
  cases hi : data[i]? with
  | none => simp [celda, hi]
  | some fila =>
    rw [celda_de_fila data i j fila hi]
    have : fila.length = ancho data := hrect fila (List.mem_iff_getElem?.mpr ⟨i, hi⟩)
    rw [List.getElem?_eq_none (by omega)]
    rfl

theorem findIdx_id_eq {l : List Bool} {n : ℕ} (h1 : l[n]? = some true)
    (h2 : ∀ k, k < n → l[k]? = some false) : l.findIdx id = n := by
  obtain ⟨hn, hg⟩ := List.getElem?_eq_some.mp h1
  have hle : l.findIdx id ≤ n := by
    by_contra hgt
    have := List.not_of_lt_findIdx (p := id) (lt_of_not_le hgt)
    rw [hg] at this
    exact absurd this (by simp)
  have hge : n ≤ l.findIdx id := by
    by_contra hgt
    have hlt : l.findIdx id < n := lt_of_not_le hgt
    have hfl : l.findIdx id < l.length := lt_trans hlt hn
    have := @List.findIdx_getElem _ id l hfl
    have h2f := h2 _ hlt
    obtain ⟨_, hgf⟩ := List.getElem?_eq_some.mp h2f
    rw [hgf] at this
    exact absurd this (by simp)
  omega

theorem np_argmax_eq {l : List Bool} {n : ℕ} (h1 : l[n]? = some true)
    (h2 : ∀ k, k < n → l[k]? = some false) : np_argmax l = n := by
  have hn := (List.getElem?_eq_some.mp h1).1
  have hany : l.any id = true :=
    List.any_eq_true.mpr ⟨true, List.mem_iff_getElem?.mpr ⟨n, h1⟩, rfl⟩
  rw [np_argmax, if_pos hany]
  exact findIdx_id_eq h1 h2

theorem np_argmax_spec (l : List Bool) (h : l.any id = true) :
    l[np_argmax l]? = some true ∧ ∀ k, k < np_argmax l → l[k]? = some false := by
  obtain ⟨b, hb, hbt⟩ := List.any_eq_true.mp h
  have hb' : b = true := hbt
  subst hb'
  obtain ⟨m, hm⟩ := List.mem_iff_getElem?.mp hb
  have hex : ∃ x ∈ l, id x = true := ⟨true, hb, rfl⟩
  have hlt : l.findIdx id < l.length := List.findIdx_lt_length_of_exists hex
  rw [np_argmax, if_pos h]
  constructor
  · rw [List.getElem?_eq_getElem hlt]
    have := @List.findIdx_getElem _ id l hlt
    simpa using congrArg some this
  · intro k hk
    have := List.not_of_lt_findIdx (p := id) hk
    rw [List.getElem?_eq_getElem (lt_trans hk hlt)]
    simpa using congrArg some this

theorem np_ultimo_eq {l : List Bool} {n : ℕ} (h0 : 0 < n) (h1 : l[n - 1]? = some true)
    (h2 : ∀ k, n ≤ k → k < l.length → l[k]? = some false) :
    l.length - np_argmax l.reverse = n := by
  have hn1 : n - 1 < l.length := (List.getElem?_eq_some.mp h1).1
  have hnl : n ≤ l.length := by omega
  have hrev : np_argmax l.reverse = l.length - n := by
    apply np_argmax_eq
    · rw [List.getElem?_reverse (by omega)]
      have : l.length - 1 - (l.length - n) = n - 1 := by omega
      rw [this]
      exact h1
    · intro k hk
      rw [List.getElem?_reverse (by omega)]
      exact h2 _ (by omega) (by omega)
  omega

theorem np_ultimo_spec (l : List Bool) (h : l.any id = true) :
    0 < l.length - np_argmax l.reverse ∧
      l[(l.length - np_argmax l.reverse) - 1]? = some true ∧
      ∀ k, l.length - np_argmax l.reverse ≤ k → k < l.length → l[k]? = some false := by
  have hrev : l.reverse.any id = true := by
    obtain ⟨b, hb, hbt⟩ := List.any_eq_true.mp h
    exact List.any_eq_true.mpr ⟨b, List.mem_reverse.mpr hb, hbt⟩
  obtain ⟨ht, hf⟩ := np_argmax_spec l.reverse hrev
  have hlt : np_argmax l.reverse < l.length := by
    have := (List.getElem?_eq_some.mp ht).1
    rwa [List.length_reverse] at this
  refine ⟨by omega, ?_, ?_⟩
  · rw [show l.length - np_argmax l.reverse - 1 = l.length - 1 - np_argmax l.reverse by omega]
    rw [← List.getElem?_reverse (by omega)]
    exact ht
  · intro k hk hkl
    have hik : l.length - 1 - k < np_argmax l.reverse := by omega
    have := hf _ hik
    rw [List.getElem?_reverse (by omega)] at this
    rw [show l.length - 1 - (l.length - 1 - k) = k by omega] at this
    exact this

theorem fv_true (data : Banda) (k : ℕ)
    (h : (data.map filaValida)[k]? = some true) : ∃ j, (celda data k j).isSome := by
  rw [List.getElem?_map] at h
  cases hk : data[k]? with
  | none => rw [hk] at h; simp at h
  | some fila =>
    rw [hk] at h
    exact (filaValida_iff data k fila hk).mp (by simpa using h)

theorem fv_false (data : Banda) (k : ℕ)
    (h : (data.map filaValida)[k]? = some false) : ∀ j, celda data k j = none := by
  rw [List.getElem?_map] at h
  cases hk : data[k]? with
  | none => rw [hk] at h; simp at h
  | some fila =>
    rw [hk] at h
    exact filaValida_falsa data k fila hk (by simpa using h)

theorem fv_en_rango (data : Banda) (k : ℕ) (hk : k < data.length) :
    ∃ fila, data[k]? = some fila ∧
      (data.map filaValida)[k]? = some (filaValida fila) := by
  refine ⟨data[k], List.getElem?_eq_getElem hk, ?_⟩
  rw [List.getElem?_map, List.getElem?_eq_getElem hk]
  rfl

theorem cv_getElem (data : Banda) (k : ℕ) (hk : k < ancho data) :
    ((List.range (ancho data)).map (columnaValida data))[k]? = some (columnaValida data k) := by
  rw [List.getElem?_map, List.getElem?_range hk]
  rfl

theorem cv_true (data : Banda) (k : ℕ)
    (h : ((List.range (ancho data)).map (columnaValida data))[k]? = some true) :
    ∃ i, (celda data i k).isSome := by
  rw [List.getElem?_map] at h
  cases hr : (List.range (ancho data))[k]? with
  | none => rw [hr] at h; simp at h
  | some m =>
    rw [hr] at h
    have hm : m = k := by
      have := List.getElem?_eq_some.mp hr
      obtain ⟨hlt, hg⟩ := this
      simpa using hg.symm
    subst hm
    exact (columnaValida_iff data m).mp (by simpa using h)

theorem cv_false (data : Banda) (k : ℕ)
    (h : ((List.range (ancho data)).map (columnaValida data))[k]? = some false) :
    ∀ i, celda data i k = none := by
  rw [List.getElem?_map] at h
  cases hr : (List.range (ancho data))[k]? with
  | none => rw [hr] at h; simp at h
  | some m =>
    rw [hr] at h
    have hm : m = k := by
      obtain ⟨hlt, hg⟩ := List.getElem?_eq_some.mp hr
      simpa using hg.symm
    subst hm
    exact columnaValida_falsa data m (by simpa using h)

theorem cv_length (data : Banda) :
    ((List.range (ancho data)).map (columnaValida data)).length = ancho data := by
  rw [List.length_map, List.length_range]

theorem areas_validas_pos (data : Banda)
    (hf : (data.map filaValida).any id = true)
    (hc : ((List.range (ancho data)).map (columnaValida data)).any id = true) :
    areas_validas data = some
      { fila_inicio := np_argmax (data.map filaValida)
        fila_fin := (data.map filaValida).length - np_argmax (data.map filaValida).reverse
        col_inicio := np_argmax ((List.range (ancho data)).map (columnaValida data))
        col_fin := ((List.range (ancho data)).map (columnaValida data)).length -
          np_argmax ((List.range (ancho data)).map (columnaValida data)).reverse } := by
  simp [areas_validas, hf, hc]

theorem areas_validas_neg (data : Banda)
    (hf : (data.map filaValida).any id = false) : areas_validas data = none := by
  simp [areas_validas, hf]

/-- C4: the valid-window detector (lines 126-147 of `11_NDVI_inta_verano.py`).
Part 1: for a raster with at least one valid sample (in a rectangular array),
the returned window is (first valid row, one past last valid row, first valid
column, one past last valid column), where a row/column is valid iff it has a
valid sample.  Part 2: a raster whose valid samples fill exactly the rectangle
`[r0,r1) × [c0,c1)` yields exactly that window.  Part 3: an all-missing raster
yields no valid window. -/
theorem detector_ventana_valida (data : Banda)
    (hrect : ∀ fila ∈ data, fila.length = ancho data) :
    ((∃ i j, (celda data i j).isSome) →
      ∃ w, areas_validas data = some w ∧
        w.fila_inicio < w.fila_fin ∧ w.fila_fin ≤ alto data ∧
        (∃ j, (celda data w.fila_inicio j).isSome) ∧
        (∀ i, i < w.fila_inicio → ∀ j, celda data i j = none) ∧
        (∃ j, (celda data (w.fila_fin - 1) j).isSome) ∧
        (∀ i, w.fila_fin ≤ i → ∀ j, celda data i j = none) ∧
        w.col_inicio < w.col_fin ∧ w.col_fin ≤ ancho data ∧
        (∃ i, (celda data i w.col_inicio).isSome) ∧
        (∀ j, j < w.col_inicio → ∀ i, celda data i j = none) ∧
        (∃ i, (celda data i (w.col_fin - 1)).isSome) ∧
        (∀ j, w.col_fin ≤ j → ∀ i, celda data i j = none)) ∧
    (∀ r0 r1 c0 c1 : ℕ, r0 < r1 → r1 ≤ alto data → c0 < c1 → c1 ≤ ancho data →
      (∀ i j, (celda data i j).isSome ↔ (r0 ≤ i ∧ i < r1 ∧ c0 ≤ j ∧ j < c1)) →
      areas_validas data = some ⟨r0, r1, c0, c1⟩) ∧
    ((∀ i j, celda data i j = none) → areas_validas data = none) := by
  refine ⟨?_, ?_, ?_⟩
  · rintro ⟨i0, j0, h0⟩
    obtain ⟨fila0, hf0, hj0len, hc0⟩ := celda_isSome_acota data i0 j0 h0
    have hi0 : i0 < data.length := (List.getElem?_eq_some.mp hf0).1
    have hfila0 : filaValida fila0 = true := (filaValida_iff data i0 fila0 hf0).mpr ⟨j0, h0⟩
    have hfvi0 : (data.map filaValida)[i0]? = some true := by
      rw [List.getElem?_map, hf0]
      simp [hfila0]
    have hanyf : (data.map filaValida).any id = true :=
      List.any_eq_true.mpr ⟨true, List.mem_iff_getElem?.mpr ⟨i0, hfvi0⟩, rfl⟩
    have hj0w : j0 < ancho data := by
      have := hrect fila0 (List.mem_iff_getElem?.mpr ⟨i0, hf0⟩)
      omega
    have hcol0 : columnaValida data j0 = true := (columnaValida_iff data j0).mpr ⟨i0, h0⟩
    have hcvj0 : ((List.range (ancho data)).map (columnaValida data))[j0]? = some true := by
      rw [cv_getElem data j0 hj0w, hcol0]
    have hanyc : ((List.range (ancho data)).map (columnaValida data)).any id = true :=
      List.any_eq_true.mpr ⟨true, List.mem_iff_getElem?.mpr ⟨j0, hcvj0⟩, rfl⟩
    obtain ⟨hft, hff⟩ := np_argmax_spec (data.map filaValida) hanyf
    obtain ⟨hfpos, hflast, hfafter⟩ := np_ultimo_spec (data.map filaValida) hanyf
    obtain ⟨hct, hcf⟩ := np_argmax_spec ((List.range (ancho data)).map (columnaValida data)) hanyc
    obtain ⟨hcpos, hclast, hcafter⟩ :=
      np_ultimo_spec ((List.range (ancho data)).map (columnaValida data)) hanyc
    have hfvlen : (data.map filaValida).length = data.length := List.length_map _ _
    have hcvlen := cv_length data
    refine ⟨_, areas_validas_pos data hanyf hanyc, ?_, ?_, ?_, ?_, ?_, ?_, ?_, ?_, ?_, ?_, ?_, ?_⟩
    · -- fila_inicio < fila_fin
      show np_argmax (data.map filaValida) <
        (data.map filaValida).length - np_argmax (data.map filaValida).reverse
      have hargl : np_argmax (data.map filaValida) < (data.map filaValida).length :=
        (List.getElem?_eq_some.mp hft).1
      by_contra hge
      push_neg at hge
      have := hfafter _ hge hargl
      rw [this] at hft
      simp at hft
    · -- fila_fin ≤ alto data
      show (data.map filaValida).length - np_argmax (data.map filaValida).reverse ≤ alto data
      simp only [alto]
      omega
    · exact fv_true data _ hft
    · intro i hi j
      exact fv_false data i (hff i hi) j
    · exact fv_true data _ hflast
    · intro i hi j
      have hi2 : (data.map filaValida).length - np_argmax (data.map filaValida).reverse ≤ i := hi
      by_cases hil : i < data.length
      · exact fv_false data i (hfafter i (by omega) (by omega)) j
      · exact celda_oob_fila data i j (le_of_not_lt hil)
    · -- col_inicio < col_fin
      show np_argmax ((List.range (ancho data)).map (columnaValida data)) <
        ((List.range (ancho data)).map (columnaValida data)).length -
          np_argmax ((List.range (ancho data)).map (columnaValida data)).reverse
      have hargl : np_argmax ((List.range (ancho data)).map (columnaValida data)) <
          ((List.range (ancho data)).map (columnaValida data)).length :=
        (List.getElem?_eq_some.mp hct).1
      by_contra hge
      push_neg at hge
      have := hcafter _ hge hargl
      rw [this] at hct
      simp at hct
    · show ((List.range (ancho data)).map (columnaValida data)).length -
        np_argmax ((List.range (ancho data)).map (columnaValida data)).reverse ≤ ancho data
      omega
    · exact cv_true data _ hct
    · intro j hj i
      exact cv_false data j (hcf j hj) i
    · exact cv_true data _ hclast
    · intro j hj i
      have hj2 : ((List.range (ancho data)).map (columnaValida data)).length -
        np_argmax ((List.range (ancho data)).map (columnaValida data)).reverse ≤ j := hj
      by_cases hjl : j < ancho data
      · exact cv_false data j (hcafter j (by omega) (by omega)) i
      · exact celda_none_de_ancho data hrect i j (le_of_not_lt hjl)
  · intro r0 r1 c0 c1 hr01 hr1 hc01 hc1 hiff
    have hlen : (data.map filaValida).length = data.length := List.length_map _ _
    have hcvlen := cv_length data
    have hr1' : r1 ≤ data.length := by simpa [alto] using hr1
    have hfvE : ∀ k, k < data.length →
        (data.map filaValida)[k]? = some (decide (r0 ≤ k ∧ k < r1)) := by
      intro k hk
      obtain ⟨fila, hfk, hmap⟩ := fv_en_rango data k hk
      rw [hmap]
      congr 1
      by_cases hin : r0 ≤ k ∧ k < r1
      · have : (celda data k c0).isSome := (hiff k c0).mpr ⟨hin.1, hin.2, le_refl c0, hc01⟩
        rw [(filaValida_iff data k fila hfk).mpr ⟨c0, this⟩]
        simp [hin]
      · cases hfv : filaValida fila with
        | true =>
          obtain ⟨j, hj⟩ := (filaValida_iff data k fila hfk).mp hfv
          obtain ⟨h1, h2, h3, h4⟩ := (hiff k j).mp hj
          exact absurd ⟨h1, h2⟩ hin
        | false => simp [hin]
    have hcvE : ∀ k, k < ancho data →
        ((List.range (ancho data)).map (columnaValida data))[k]? =
          some (decide (c0 ≤ k ∧ k < c1)) := by
      intro k hk
      rw [cv_getElem data k hk]
      congr 1
      by_cases hin : c0 ≤ k ∧ k < c1
      · have : (celda data r0 k).isSome := (hiff r0 k).mpr ⟨le_refl r0, hr01, hin.1, hin.2⟩
        rw [(columnaValida_iff data k).mpr ⟨r0, this⟩]
        simp [hin]
      · cases hcv : columnaValida data k with
        | true =>
          obtain ⟨i, hi⟩ := (columnaValida_iff data k).mp hcv
          obtain ⟨h1, h2, h3, h4⟩ := (hiff i k).mp hi
          exact absurd ⟨h3, h4⟩ hin
        | false => simp [hin]
    have hanyf : (data.map filaValida).any id = true := by
      refine List.any_eq_true.mpr ⟨true, List.mem_iff_getElem?.mpr ⟨r0, ?_⟩, rfl⟩
      rw [hfvE r0 (by omega)]
      simp only [Option.some.injEq, decide_eq_true_eq]
      omega
    have hanyc : ((List.range (ancho data)).map (columnaValida data)).any id = true := by
      refine List.any_eq_true.mpr ⟨true, List.mem_iff_getElem?.mpr ⟨c0, ?_⟩, rfl⟩
      rw [hcvE c0 (by omega)]
      simp only [Option.some.injEq, decide_eq_true_eq]
      omega
    rw [areas_validas_pos data hanyf hanyc]
    have hargf : np_argmax (data.map filaValida) = r0 := by
      apply np_argmax_eq
      · rw [hfvE r0 (by omega)]
        simp only [Option.some.injEq, decide_eq_true_eq]
        omega
      · intro k hk
        rw [hfvE k (by omega)]
        simp only [Option.some.injEq, decide_eq_false_iff_not]
        omega
    have hultf : (data.map filaValida).length - np_argmax (data.map filaValida).reverse = r1 := by
      apply np_ultimo_eq (show 0 < r1 by omega)
      · rw [hfvE (r1 - 1) (by omega)]
        simp only [Option.some.injEq, decide_eq_true_eq]
        omega
      · intro k hk hkl
        rw [hlen] at hkl
        rw [hfvE k hkl]
        simp only [Option.some.injEq, decide_eq_false_iff_not]
        omega
    have hargc : np_argmax ((List.range (ancho data)).map (columnaValida data)) = c0 := by
      apply np_argmax_eq
      · rw [hcvE c0 (by omega)]
        simp only [Option.some.injEq, decide_eq_true_eq]
        omega
      · intro k hk
        rw [hcvE k (by omega)]
        simp only [Option.some.injEq, decide_eq_false_iff_not]
        omega
    have hultc : ((List.range (ancho data)).map (columnaValida data)).length -
        np_argmax ((List.range (ancho data)).map (columnaValida data)).reverse = c1 := by
      apply np_ultimo_eq (show 0 < c1 by omega)
      · rw [hcvE (c1 - 1) (by omega)]
        simp only [Option.some.injEq, decide_eq_true_eq]
        omega
      · intro k hk hkl
        rw [hcvlen] at hkl
        rw [hcvE k hkl]
        simp only [Option.some.injEq, decide_eq_false_iff_not]
        omega
    rw [hargf, hultf, hargc, hultc]
  · intro h
    apply areas_validas_neg
    rw [List.any_eq_false]
    intro b hb hbt
    have hb2 : b = true := hbt
    subst hb2
    obtain ⟨k, hk⟩ := List.mem_iff_getElem?.mp hb
    obtain ⟨j, hj⟩ := fv_true data k hk
    rw [h k j] at hj
    simp at hj

/-- A small concrete band for witnesses: valid data exactly at (0,1). -/
def ejemploDetector : Banda := [[none, some 1], [none, none]]

/-- Witness for C4 at `ejemploDetector`. -/
theorem detector_ventana_valida_witness :
    (∀ fila ∈ ejemploDetector, fila.length = ancho ejemploDetector) ∧
    (((∃ i j, (celda ejemploDetector i j).isSome) →
      ∃ w, areas_validas ejemploDetector = some w ∧
        w.fila_inicio < w.fila_fin ∧ w.fila_fin ≤ alto ejemploDetector ∧
        (∃ j, (celda ejemploDetector w.fila_inicio j).isSome) ∧
        (∀ i, i < w.fila_inicio → ∀ j, celda ejemploDetector i j = none) ∧
        (∃ j, (celda ejemploDetector (w.fila_fin - 1) j).isSome) ∧
        (∀ i, w.fila_fin ≤ i → ∀ j, celda ejemploDetector i j = none) ∧
        w.col_inicio < w.col_fin ∧ w.col_fin ≤ ancho ejemploDetector ∧
        (∃ i, (celda ejemploDetector i w.col_inicio).isSome) ∧
        (∀ j, j < w.col_inicio → ∀ i, celda ejemploDetector i j = none) ∧
        (∃ i, (celda ejemploDetector i (w.col_fin - 1)).isSome) ∧
        (∀ j, w.col_fin ≤ j → ∀ i, celda ejemploDetector i j = none)) ∧
    (∀ r0 r1 c0 c1 : ℕ, r0 < r1 → r1 ≤ alto ejemploDetector → c0 < c1 →
      c1 ≤ ancho ejemploDetector →
      (∀ i j, (celda ejemploDetector i j).isSome ↔ (r0 ≤ i ∧ i < r1 ∧ c0 ≤ j ∧ j < c1)) →
      areas_validas ejemploDetector = some ⟨r0, r1, c0, c1⟩) ∧
    ((∀ i j, celda ejemploDetector i j = none) → areas_validas ejemploDetector = none)) :=
  ⟨by decide, detector_ventana_valida ejemploDetector (by decide)⟩

/-! Temporal gap-filler (`Coronel Suarez/11_NDVI_coronel_suarez_verano.py`,
lines 384-453). -/

/-- `np.sum(~np.isnan(banda))`: number of valid samples of a band. -/
def n_validos (g : Banda) : ℕ :=
  (g.map (fun fila => (fila.filter (fun c => c.isSome)).length)).sum

/-- `banda.size`: total number of samples. -/
def total_pixels (g : Banda) : ℕ :=
  (g.map List.length).sum

/-- `pct_validos` (lines 392-393): percentage of valid samples, with Python
float division modelled exactly in ℚ. -/
def pct_validos (g : Banda) : ℚ :=
  100 * (n_validos g : ℚ) / (total_pixels g : ℚ)

/-- Pointwise semantics of the three masked assignments of lines 411-430:
a pixel already valid in May keeps its value; a missing pixel becomes the
mean of April and June when both are valid, the single valid neighbor when
exactly one is, and stays missing when neither is. -/
def interpolar_pixel (m a b : Option ℚ) : Option ℚ :=
  match m, a, b with
  | some v, _, _ => some v
  | none, some x, some y => some ((x + y) / 2)
  | none, some x, none => some x
  | none, none, some y => some y
  | none, none, none => none

/-- Three-list pointwise zip (numpy broadcasting over three same-shaped
arrays; trailing elements without a counterpart are dropped, which never
happens for the same-shaped bands the script uses). -/
def zipWith3 {α β γ δ : Type} (f : α → β → γ → δ) : List α → List β → List γ → List δ
  | x :: xs, y :: ys, z :: zs => f x y z :: zipWith3 f xs ys zs
  | _, _, _ => []

/-- `mayo_interpolado` (lines 418-430) as a pointwise grid operation. -/
def mayo_interpolado (mayo abril junio : Banda) : Banda :=
  zipWith3 (fun fm fa fj => zipWith3 interpolar_pixel fm fa fj) mayo abril junio

/-- Two bands have the same shape: equal row count and equal row lengths. -/
def mismaForma (g h : Banda) : Prop :=
  g.map List.length = h.map List.length

instance (g h : Banda) : Decidable (mismaForma g h) := by
  unfold mismaForma
  infer_instance

/-- Step 3.5 of the Coronel Suarez script (lines 384-453): if the May band
(index 5) exists and has less than 50 percent valid samples and both
neighbors (April, index 4; June, index 6) exist, replace the May band by its
interpolation; in every other case the band list is left unchanged. -/
def paso35 (bandas : List Banda) : List Banda :=
  if h5 : 5 < bandas.length then
    if pct_validos bandas[5] < 50 then
      if h6 : 6 < bandas.length then
        bandas.set 5 (mayo_interpolado bandas[5] bandas[4] bandas[6])
      else bandas
    else bandas
  else bandas

theorem zipWith3_getElem? {α β γ δ : Type} (f : α → β → γ → δ)
    (as : List α) (bs : List β) (cs : List γ) (i : ℕ) :
    (zipWith3 f as bs cs)[i]? =
      match as[i]?, bs[i]?, cs[i]? with
      | some a, some b, some c => some (f a b c)
      | _, _, _ => none := by
  induction as generalizing bs cs i with
  | nil => cases bs <;> cases cs <;> simp [zipWith3]
  | cons a as ih =>
    cases bs with
    | nil => simp [zipWith3]
    | cons b bs =>
      cases cs with
      | nil => simp [zipWith3]
      | cons c cs =>
        cases i with
        | zero => simp [zipWith3]
        | succ n => simpa [zipWith3] using ih bs cs n

theorem mismaForma_getElem (g h : Banda) (hf : mismaForma g h) (i : ℕ) :
    (g[i]?.map List.length) = (h[i]?.map List.length) := by
  unfold mismaForma at hf
  rw [← List.getElem?_map, ← List.getElem?_map, hf]

theorem mayo_interpolado_celda (mayo abril junio : Banda)
    (hfa : mismaForma mayo abril) (hfj : mismaForma mayo junio) (i j : ℕ) :
    celda (mayo_interpolado mayo abril junio) i j =
      interpolar_pixel (celda mayo i j) (celda abril i j) (celda junio i j) := by
  have ha := mismaForma_getElem mayo abril hfa i
  have hj2 := mismaForma_getElem mayo junio hfj i
  unfold mayo_interpolado
  cases hm : mayo[i]? with
  | none =>
    rw [hm] at ha hj2
    have ha2 : abril[i]? = none := by
      cases h2 : abril[i]? with
      | none => rfl
      | some fa => rw [h2] at ha; simp at ha
    have hj3 : junio[i]? = none := by
      cases h2 : junio[i]? with
      | none => rfl
      | some fj => rw [h2] at hj2; simp at hj2
    simp [celda, zipWith3_getElem?, hm, ha2, hj3, interpolar_pixel]
  | some fm =>
    rw [hm] at ha hj2
    cases h2 : abril[i]? with
    | none => rw [h2] at ha; simp at ha
    | some fa =>
      cases h3 : junio[i]? with
      | none => rw [h3] at hj2; simp at hj2
      | some fj =>
        rw [h2] at ha
        rw [h3] at hj2
        have hlen_a : fm.length = fa.length := by simpa using ha
        have hlen_j : fm.length = fj.length := by simpa using hj2
        simp only [celda, zipWith3_getElem?, hm, h2, h3]
        cases hcm : fm[j]? with
        | none =>
          have hca : fa[j]? = none := List.getElem?_eq_none (by
            have := (List.getElem?_eq_none_iff).mp hcm
            omega)
          have hcj : fj[j]? = none := List.getElem?_eq_none (by
            have := (List.getElem?_eq_none_iff).mp hcm
            omega)
          simp [zipWith3_getElem?, hcm, hca, hcj, interpolar_pixel]
        | some m =>
          have hjlen : j < fm.length := (List.getElem?_eq_some.mp hcm).1
          obtain ⟨a, hca⟩ : ∃ a, fa[j]? = some a :=
            ⟨fa[j], List.getElem?_eq_getElem (by omega)⟩
          obtain ⟨b, hcb⟩ : ∃ b, fj[j]? = some b :=
            ⟨fj[j], List.getElem?_eq_getElem (by omega)⟩
          simp [zipWith3_getElem?, hcm, hca, hcb]

/-- C2: when the May band (index 5) exists with both neighbors and its valid
fraction is below 50 percent, the gap-filled May band satisfies, per pixel:
valid May pixels are kept; missing May pixels become the mean `(a+b)/2` of
valid April/June values, the single valid neighbor when only one is valid,
and stay missing when neither is. -/
theorem gap_filler_mayo (bandas : List Banda) (h6 : 6 < bandas.length)
    (hpct : pct_validos bandas[5] < 50)
    (hfa : mismaForma bandas[5] bandas[4])
    (hfj : mismaForma bandas[5] bandas[6]) :
    ∃ M, (paso35 bandas)[5]? = some M ∧
      (∀ i j v, celda bandas[5] i j = some v → celda M i j = some v) ∧
      (∀ i j a b, celda bandas[5] i j = none → celda bandas[4] i j = some a →
        celda bandas[6] i j = some b → celda M i j = some ((a + b) / 2)) ∧
      (∀ i j a, celda bandas[5] i j = none → celda bandas[4] i j = some a →
        celda bandas[6] i j = none → celda M i j = some a) ∧
      (∀ i j b, celda bandas[5] i j = none → celda bandas[4] i j = none →
        celda bandas[6] i j = some b → celda M i j = some b) ∧
      (∀ i j, celda bandas[5] i j = none → celda bandas[4] i j = none →
        celda bandas[6] i j = none → celda M i j = none) := by
  have h5 : 5 < bandas.length := by omega
  refine ⟨mayo_interpolado bandas[5] bandas[4] bandas[6], ?_, ?_, ?_, ?_, ?_, ?_⟩
  · unfold paso35
    rw [dif_pos h5, if_pos hpct, dif_pos h6]
    rw [List.getElem?_set]
    simp [h5]
  · intro i j v hv
    rw [mayo_interpolado_celda bandas[5] bandas[4] bandas[6] hfa hfj i j, hv]
    rfl
  · intro i j a b hm ha hb
    rw [mayo_interpolado_celda bandas[5] bandas[4] bandas[6] hfa hfj i j, hm, ha, hb]
    rfl
  · intro i j a hm ha hb
    rw [mayo_interpolado_celda bandas[5] bandas[4] bandas[6] hfa hfj i j, hm, ha, hb]
    rfl
  · intro i j b hm ha hb
    rw [mayo_interpolado_celda bandas[5] bandas[4] bandas[6] hfa hfj i j, hm, ha, hb]
    rfl
  · intro i j hm ha hb
    rw [mayo_interpolado_celda bandas[5] bandas[4] bandas[6] hfa hfj i j, hm, ha, hb]
    rfl

/-- Seven concrete 1x4 monthly bands; May (index 5) has 1 of 4 valid samples,
April and June exercise all four fill cases at columns 0-3. -/
def ejemploBandas : List Banda :=
  [ [[none, none, none, none]]
  , [[none, none, none, none]]
  , [[none, none, none, none]]
  , [[none, none, none, none]]
  , [[some 2, some 2, none, none]]
  , [[some 1, none, none, none]]
  , [[some 4, some 4, some 6, none]] ]

/-- Witness for C2 at `ejemploBandas`. -/
theorem gap_filler_mayo_witness :
    6 < ejemploBandas.length ∧
    pct_validos ejemploBandas[5] < 50 ∧
    mismaForma ejemploBandas[5] ejemploBandas[4] ∧
    mismaForma ejemploBandas[5] ejemploBandas[6] ∧
    (∃ M, (paso35 ejemploBandas)[5]? = some M ∧
      (∀ i j v, celda ejemploBandas[5] i j = some v → celda M i j = some v) ∧
      (∀ i j a b, celda ejemploBandas[5] i j = none → celda ejemploBandas[4] i j = some a →
        celda ejemploBandas[6] i j = some b → celda M i j = some ((a + b) / 2)) ∧
      (∀ i j a, celda ejemploBandas[5] i j = none → celda ejemploBandas[4] i j = some a →
        celda ejemploBandas[6] i j = none → celda M i j = some a) ∧
      (∀ i j b, celda ejemploBandas[5] i j = none → celda ejemploBandas[4] i j = none →
        celda ejemploBandas[6] i j = some b → celda M i j = some b) ∧
      (∀ i j, celda ejemploBandas[5] i j = none → celda ejemploBandas[4] i j = none →
        celda ejemploBandas[6] i j = none → celda M i j = none)) :=
  have hpct : pct_validos ejemploBandas[5] < 50 := by
    have h1 : n_validos ejemploBandas[5] = 1 := by decide
    have h2 : total_pixels ejemploBandas[5] = 4 := by decide
    rw [pct_validos, h1, h2]
    norm_num
  ⟨by decide, hpct, by decide, by decide,
    gap_filler_mayo ejemploBandas (by decide) hpct (by decide) (by decide)⟩

/-- C10: the gap-fill step only ever replaces the band at index 5; every other
band of the list (including the April and June neighbors it reads) is left
untouched, and the category band is not even an input of the step. -/
theorem paso35_solo_mayo (bandas : List Banda) (i : ℕ) (hi : i ≠ 5) :
    (paso35 bandas)[i]? = bandas[i]? := by
  unfold paso35
  split
  · split
    · split
      · exact List.getElem?_set_ne (fun h => hi h.symm)
      · rfl
    · rfl
  · rfl

/-- Witness for C10: index 4 (April) is unchanged on `ejemploBandas`. -/
theorem paso35_solo_mayo_witness :
    (4 : ℕ) ≠ 5 ∧ (paso35 ejemploBandas)[4]? = ejemploBandas[4]? :=
  ⟨by decide, paso35_solo_mayo ejemploBandas 4 (by decide)⟩

/-! Stack reducer (`11_NDVI_inta_verano.py`, lines 277-292): per-pixel
NaN-ignoring median, min, max and standard deviation along the time axis. -/

/-- The time series of pixel `(i, j)` across the stacked bands. -/
def serie (stack : List Banda) (i j : ℕ) : List (Option ℚ) :=
  stack.map (fun g => celda g i j)

/-- `np.nanmin` of one pixel series: minimum of the valid values, `NaN`
(modelled `none`) when every value is missing. -/
def nanmin_pix (ts : List (Option ℚ)) : Option ℚ :=
  match ts.reduceOption with
  | [] => none
  | v :: vs => some (vs.foldl min v)

/-- `np.nanmax` of one pixel series. -/
def nanmax_pix (ts : List (Option ℚ)) : Option ℚ :=
  match ts.reduceOption with
  | [] => none
  | v :: vs => some (vs.foldl max v)

/-- `np.nanmedian` of one pixel series: sort the valid values; take the middle
one for an odd count, the mean of the two middle ones for an even count;
`none` when there are no valid values. -/
def nanmedian_pix (ts : List (Option ℚ)) : Option ℚ :=
  let vs := List.insertionSort (· ≤ ·) ts.reduceOption
  if vs.length % 2 = 1 then vs[vs.length / 2]?
  else
    match vs[vs.length / 2 - 1]?, vs[vs.length / 2]? with
    | some x, some y => some ((x + y) / 2)
    | _, _ => none

/-- Mean of a list of rationals. -/
def nanmean (vs : List ℚ) : ℚ := vs.sum / (vs.length : ℚ)

/-- `np.nanstd` of one pixel series, modelled by its square: the population
variance of the valid values (`ddof=0`).  `np.nanstd` returns the square root
of exactly this quantity; the square root is irrational-valued and hence kept
implicit — whether the pixel is defined, and which valid samples it depends
on, are identical for the variance and its square root. -/
def nanvar_pix (ts : List (Option ℚ)) : Option ℚ :=
  match ts.reduceOption with
  | [] => none
  | v :: vs =>
    some ((((v :: vs).map (fun x => (x - nanmean (v :: vs)) ^ 2)).sum) /
      ((v :: vs).length : ℚ))

/-- Per-pixel reduction of the stack along the time axis (`axis=0`), producing
a band with the shape of the first stacked band. -/
def reducir (stack : List Banda) (f : List (Option ℚ) → Option ℚ) : Banda :=
  (List.range (alto (stack.headD []))).map (fun i =>
    (List.range (ancho (stack.headD []))).map (fun j => f (serie stack i j)))

/-- `mediana = np.nanmedian(stack_ndvi, axis=0)` (line 283). -/
def mediana (stack : List Banda) : Banda := reducir stack nanmedian_pix

/-- `minimo = np.nanmin(stack_ndvi, axis=0)` (line 286). -/
def minimo (stack : List Banda) : Banda := reducir stack nanmin_pix

/-- `maximo = np.nanmax(stack_ndvi, axis=0)` (line 289). -/
def maximo (stack : List Banda) : Banda := reducir stack nanmax_pix

/-- `desviacion = np.nanstd(stack_ndvi, axis=0)` (line 292), modelled by its
square (the population variance) as documented at `nanvar_pix`. -/
def desviacion (stack : List Banda) : Banda := reducir stack nanvar_pix

theorem reducir_celda (stack : List Banda) (f : List (Option ℚ) → Option ℚ)
    (i j : ℕ) (hi : i < alto (stack.headD [])) (hj : j < ancho (stack.headD [])) :
    celda (reducir stack f) i j = f (serie stack i j) := by
  unfold celda reducir
  rw [List.getElem?_map, List.getElem?_range hi]
  simp only [Option.map, Option.getD]
  rw [List.getElem?_map, List.getElem?_range hj]
  rfl

theorem range_map_getElem?_none {β : Type} (n k : ℕ) (g : ℕ → β) (h : n ≤ k) :
    ((List.range n).map g)[k]? = none :=
  List.getElem?_eq_none (by simpa using h)

theorem reducir_celda_oob (stack : List Banda) (f : List (Option ℚ) → Option ℚ)
    (i j : ℕ) (h : ¬ (i < alto (stack.headD []) ∧ j < ancho (stack.headD []))) :
    celda (reducir stack f) i j = none := by
  by_cases hi : i < alto (stack.headD [])
  · have hj : ancho (stack.headD []) ≤ j := by omega
    unfold celda reducir
    rw [List.getElem?_map, List.getElem?_range hi]
    simp only [Option.map, Option.getD]
    rw [range_map_getElem?_none _ _ _ hj]
  · have hi2 : alto (stack.headD []) ≤ i := le_of_not_lt hi
    unfold celda reducir
    rw [range_map_getElem?_none _ _ _ hi2]
    rfl

theorem nanmin_pix_vacio (ts : List (Option ℚ)) (h : ts.reduceOption = []) :
    nanmin_pix ts = none := by
  unfold nanmin_pix
  rw [h]

theorem nanmax_pix_vacio (ts : List (Option ℚ)) (h : ts.reduceOption = []) :
    nanmax_pix ts = none := by
  unfold nanmax_pix
  rw [h]

theorem nanmedian_pix_vacio (ts : List (Option ℚ)) (h : ts.reduceOption = []) :
    nanmedian_pix ts = none := by
  unfold nanmedian_pix
  rw [h]
  rfl

theorem nanvar_pix_vacio (ts : List (Option ℚ)) (h : ts.reduceOption = []) :
    nanvar_pix ts = none := by
  unfold nanvar_pix
  rw [h]

theorem reducir_forma (stack : List Banda) (f : List (Option ℚ) → Option ℚ) :
    (reducir stack f).map List.length =
      List.replicate (alto (stack.headD [])) (ancho (stack.headD [])) := by
  unfold reducir
  rw [List.map_map]
  have hcomp : (List.length ∘ fun i =>
      (List.range (ancho (stack.headD []))).map (fun j => f (serie stack i j))) =
      fun _ => ancho (stack.headD []) := by
    funext i
    simp
  rw [hcomp, List.map_const', List.length_range]

theorem forma_replicada (g : Banda) (hrect : ∀ fila ∈ g, fila.length = ancho g) :
    g.map List.length = List.replicate (alto g) (ancho g) := by
  have := List.eq_replicate_of_mem (a := ancho g) (l := g.map List.length) ?_
  · rwa [List.length_map] at this
  · intro b hb
    obtain ⟨fila, hmem, rfl⟩ := List.mem_map.mp hb
    exact hrect fila hmem

/-- C3: the stack reducer.  For same-shaped stacked bands: every one of the
four outputs has the shape of the input bands; each output pixel is the
corresponding NaN-ignoring reduction of that pixel's time series (median,
min, max, population standard deviation — the latter modelled by its square,
the population variance); a pixel with no valid value in any time slice is
missing in all four outputs; and the min/max outputs are characterized as
genuine minimum/maximum over exactly the valid values of the series. -/
theorem reductor_stack (stack : List Banda)
    (hrect0 : ∀ fila ∈ stack.headD [], fila.length = ancho (stack.headD []))
    (hforma : ∀ g ∈ stack, mismaForma (stack.headD []) g) :
    (∀ g ∈ stack, g.map List.length = (mediana stack).map List.length ∧
      g.map List.length = (minimo stack).map List.length ∧
      g.map List.length = (maximo stack).map List.length ∧
      g.map List.length = (desviacion stack).map List.length) ∧
    (∀ i j, i < alto (stack.headD []) → j < ancho (stack.headD []) →
      celda (mediana stack) i j = nanmedian_pix (serie stack i j) ∧
      celda (minimo stack) i j = nanmin_pix (serie stack i j) ∧
      celda (maximo stack) i j = nanmax_pix (serie stack i j) ∧
      celda (desviacion stack) i j = nanvar_pix (serie stack i j)) ∧
    (∀ i j, (serie stack i j).reduceOption = [] →
      celda (mediana stack) i j = none ∧ celda (minimo stack) i j = none ∧
      celda (maximo stack) i j = none ∧ celda (desviacion stack) i j = none) ∧
    (∀ i j v, celda (minimo stack) i j = some v →
      v ∈ (serie stack i j).reduceOption ∧
        ∀ x ∈ (serie stack i j).reduceOption, v ≤ x) ∧
    (∀ i j v, celda (maximo stack) i j = some v →
      v ∈ (serie stack i j).reduceOption ∧
        ∀ x ∈ (serie stack i j).reduceOption, x ≤ v) := by
  have hshape : ∀ g ∈ stack, g.map List.length =
      List.replicate (alto (stack.headD [])) (ancho (stack.headD [])) := by
    intro g hg
    rw [← (hforma g hg)]
    exact forma_replicada (stack.headD []) hrect0
  simp only [mediana, minimo, maximo, desviacion]
  refine ⟨?_, ?_, ?_, ?_, ?_⟩
  · intro g hg
    refine ⟨?_, ?_, ?_, ?_⟩ <;>
      rw [hshape g hg, reducir_forma]
  · intro i j hi hj
    exact ⟨reducir_celda stack _ i j hi hj, reducir_celda stack _ i j hi hj,
      reducir_celda stack _ i j hi hj, reducir_celda stack _ i j hi hj⟩
  · intro i j hvac
    by_cases hin : i < alto (stack.headD []) ∧ j < ancho (stack.headD [])
    · refine ⟨?_, ?_, ?_, ?_⟩
      · rw [reducir_celda stack _ i j hin.1 hin.2]
        exact nanmedian_pix_vacio _ hvac
      · rw [reducir_celda stack _ i j hin.1 hin.2]
        exact nanmin_pix_vacio _ hvac
      · rw [reducir_celda stack _ i j hin.1 hin.2]
        exact nanmax_pix_vacio _ hvac
      · rw [reducir_celda stack _ i j hin.1 hin.2]
        exact nanvar_pix_vacio _ hvac
    · exact ⟨reducir_celda_oob stack _ i j hin, reducir_celda_oob stack _ i j hin,
        reducir_celda_oob stack _ i j hin, reducir_celda_oob stack _ i j hin⟩
  · intro i j v hv
    have hval : nanmin_pix (serie stack i j) = some v := by
      by_cases hin : i < alto (stack.headD []) ∧ j < ancho (stack.headD [])
      · rwa [reducir_celda stack _ i j hin.1 hin.2] at hv
      · rw [reducir_celda_oob stack _ i j hin] at hv
        exact absurd hv (by simp)
    unfold nanmin_pix at hval
    cases hred : (serie stack i j).reduceOption with
    | nil => rw [hred] at hval; exact absurd hval (by simp)
    | cons x xs =>
      rw [hred] at hval
      simp only [Option.some.injEq] at hval
      subst hval
      constructor
      · rcases foldl_min_eq_or_mem x xs with h | h
        · rw [h]; exact List.mem_cons_self x xs
        · exact List.mem_cons_of_mem x h
      · intro y hy
        rcases List.mem_cons.mp hy with rfl | hy
        · exact (foldl_min_le y xs).1
        · exact (foldl_min_le x xs).2 y hy
  · intro i j v hv
    have hval : nanmax_pix (serie stack i j) = some v := by
      by_cases hin : i < alto (stack.headD []) ∧ j < ancho (stack.headD [])
      · rwa [reducir_celda stack _ i j hin.1 hin.2] at hv
      · rw [reducir_celda_oob stack _ i j hin] at hv
        exact absurd hv (by simp)
    unfold nanmax_pix at hval
    cases hred : (serie stack i j).reduceOption with
    | nil => rw [hred] at hval; exact absurd hval (by simp)
    | cons x xs =>
      rw [hred] at hval
      simp only [Option.some.injEq] at hval
      subst hval
      constructor
      · rcases foldl_max_eq_or_mem x xs with h | h
        · rw [h]; exact List.mem_cons_self x xs
        · exact List.mem_cons_of_mem x h
      · intro y hy
        rcases List.mem_cons.mp hy with rfl | hy
        · exact (le_foldl_max y xs).1
        · exact (le_foldl_max x xs).2 y hy

/-- The spec example series as a stack of four 1x1 bands:
`[2, NaN, 5, 8]` at the single pixel (scaled integer variant of
`[0.2, NaN, 0.5, 0.8]` so the values are kernel-evaluable). -/
def ejemploStack : List Banda := [[[some 2]], [[none]], [[some 5]], [[some 8]]]

/-- Witness for C3 at `ejemploStack`, with the spec example values checked:
median 5, min 2, max 8 over the three valid samples. -/
theorem reductor_stack_witness :
    (∀ fila ∈ ejemploStack.headD [], fila.length = ancho (ejemploStack.headD [])) ∧
    (∀ g ∈ ejemploStack, mismaForma (ejemploStack.headD []) g) ∧
    celda (mediana ejemploStack) 0 0 = some 5 ∧
    celda (minimo ejemploStack) 0 0 = some 2 ∧
    celda (maximo ejemploStack) 0 0 = some 8 ∧
    ((∀ g ∈ ejemploStack, g.map List.length = (mediana ejemploStack).map List.length ∧
      g.map List.length = (minimo ejemploStack).map List.length ∧
      g.map List.length = (maximo ejemploStack).map List.length ∧
      g.map List.length = (desviacion ejemploStack).map List.length) ∧
    (∀ i j, i < alto (ejemploStack.headD []) → j < ancho (ejemploStack.headD []) →
      celda (mediana ejemploStack) i j = nanmedian_pix (serie ejemploStack i j) ∧
      celda (minimo ejemploStack) i j = nanmin_pix (serie ejemploStack i j) ∧
      celda (maximo ejemploStack) i j = nanmax_pix (serie ejemploStack i j) ∧
      celda (desviacion ejemploStack) i j = nanvar_pix (serie ejemploStack i j)) ∧
    (∀ i j, (serie ejemploStack i j).reduceOption = [] →
      celda (mediana ejemploStack) i j = none ∧ celda (minimo ejemploStack) i j = none ∧
      celda (maximo ejemploStack) i j = none ∧ celda (desviacion ejemploStack) i j = none) ∧
    (∀ i j v, celda (minimo ejemploStack) i j = some v →
      v ∈ (serie ejemploStack i j).reduceOption ∧
        ∀ x ∈ (serie ejemploStack i j).reduceOption, v ≤ x) ∧
    (∀ i j v, celda (maximo ejemploStack) i j = some v →
      v ∈ (serie ejemploStack i j).reduceOption ∧
        ∀ x ∈ (serie ejemploStack i j).reduceOption, x ≤ v)) :=
  ⟨by decide, by decide, by decide, by decide, by decide,
    reductor_stack ejemploStack (by decide) (by decide)⟩

/-! Majority (mode) filter, `MWM_filter/mwm_3_arroyos.py`. -/

/-- `np.argmax` on the count vector: index of the first occurrence of the
maximum value. -/
def np_argmax_nat (l : List ℕ) : ℕ :=
  l.findIdx (fun x => x == l.foldl max 0)

/-- `vec = vecindario[vecindario >= 0]` (line 12): the non-negative
(non-nodata) votes of the neighborhood. -/
def vecinosValidos (vecindario : List ℤ) : List ℤ :=
  vecindario.filter (fun v => decide (0 ≤ v))

/-- `valores` of `np.unique` (line 15): the distinct vote values in
ascending order. -/
def valoresUnicos (vec : List ℤ) : List ℤ :=
  List.insertionSort (· ≤ ·) vec.dedup

/-- `conteos` of `np.unique(..., return_counts=True)` (line 15): the
multiplicity of each distinct value, aligned with `valoresUnicos`. -/
def conteosDe (vec : List ℤ) : List ℕ :=
  (valoresUnicos vec).map (fun v => vec.count v)

/-- `moda` (lines 11-16): drop negative (nodata) values; `-1` when nothing
remains; otherwise `valores[np.argmax(conteos)]`, the first value of maximal
count among the sorted distinct values (so ties go to the smallest value).
The `getD` default is never hit: the index is in range for a non-empty vote. -/
def moda (vecindario : List ℤ) : ℤ :=
  if (vecinosValidos vecindario).isEmpty then -1
  else
    ((valoresUnicos (vecinosValidos vecindario))[
      np_argmax_nat (conteosDe (vecinosValidos vecindario))]?).getD (-1)

/-- Clamp an index to `[0, n-1]` (`scipy.ndimage` boundary mode `nearest`:
edge values are replicated beyond the border). -/
def clampIdx (n : ℕ) (k : ℤ) : ℕ :=
  (max 0 (min k ((n : ℤ) - 1))).toNat

/-- Sample of an integer category raster (out-of-range gives the nodata
sentinel `-1`; never reached through `clampIdx` on a non-empty grid). -/
def celdaZ (pred : List (List ℤ)) (i j : ℕ) : ℤ :=
  ((pred[i]?.getD [])[j]?).getD (-1)

/-- The 3x3 neighborhood of pixel `(i, j)` in row-major order with
edge-replicated borders, as `generic_filter(..., size=3, mode='nearest')`
presents it to `moda`. -/
def vecindario3x3 (pred : List (List ℤ)) (i j : ℕ) : List ℤ :=
  ([-1, 0, 1] : List ℤ).flatMap (fun di =>
    ([-1, 0, 1] : List ℤ).map (fun dj =>
      celdaZ pred (clampIdx pred.length ((i : ℤ) + di))
        (clampIdx (ancho pred) ((j : ℤ) + dj))))

/-- `generic_filter(pred, moda, size=3, mode='nearest')` (lines 30-35). -/
def mwm_filtrado (pred : List (List ℤ)) : List (List ℤ) :=
  (List.range pred.length).map (fun i =>
    (List.range (ancho pred)).map (fun j => moda (vecindario3x3 pred i j)))

theorem np_argmax_nat_spec (l : List ℕ) (hne : l ≠ []) :
    ∃ c, l[np_argmax_nat l]? = some c ∧ (∀ x ∈ l, x ≤ c) ∧
      ∀ k, k < np_argmax_nat l → l[k]? ≠ some c := by
  have hmax := le_foldl_max 0 l
  have hmem : l.foldl max 0 ∈ l := by
    rcases foldl_max_eq_or_mem 0 l with h | h
    · cases l with
      | nil => exact absurd rfl hne
      | cons a as =>
        have ha : a ≤ (a :: as).foldl max 0 := (le_foldl_max 0 (a :: as)).2 a
          (List.mem_cons_self a as)
        rw [h] at ha
        have : a = 0 := Nat.le_zero.mp ha
        rw [h, ← this]
        exact List.mem_cons_self a as
    · exact h
  have hex : ∃ x ∈ l, (x == l.foldl max 0) = true := ⟨_, hmem, beq_self_eq_true _⟩
  have hlt : l.findIdx (fun x => x == l.foldl max 0) < l.length :=
    List.findIdx_lt_length_of_exists hex
  refine ⟨l.foldl max 0, ?_, hmax.2, ?_⟩
  · rw [np_argmax_nat, List.getElem?_eq_getElem hlt]
    have := @List.findIdx_getElem _ (fun x => x == l.foldl max 0) l hlt
    rw [beq_iff_eq.mp this]
  · intro k hk
    rw [np_argmax_nat] at hk
    have := List.not_of_lt_findIdx (p := fun x => x == l.foldl max 0) hk
    rw [List.getElem?_eq_getElem (lt_trans hk hlt)]
    intro hsome
    have hkv : l[k] = l.foldl max 0 := Option.some_injective _ hsome
    rw [hkv] at this
    simp at this

theorem valoresUnicos_mem (vec : List ℤ) (x : ℤ) :
    x ∈ valoresUnicos vec ↔ x ∈ vec :=
  ((List.perm_insertionSort _ _).mem_iff).trans List.mem_dedup

theorem valoresUnicos_sorted (vec : List ℤ) :
    List.Sorted (· ≤ ·) (valoresUnicos vec) :=
  List.sorted_insertionSort _ _

theorem conteosDe_getElem? (vec : List ℤ) (k : ℕ) :
    (conteosDe vec)[k]? = Option.map (fun v => vec.count v) (valoresUnicos vec)[k]? := by
  rw [conteosDe, List.getElem?_map]

theorem moda_caracterizacion (l : List ℤ) (hne : vecinosValidos l ≠ []) :
    moda l ∈ vecinosValidos l ∧
    (∀ x ∈ vecinosValidos l,
      (vecinosValidos l).count x ≤ (vecinosValidos l).count (moda l)) ∧
    (∀ x ∈ vecinosValidos l,
      (vecinosValidos l).count x = (vecinosValidos l).count (moda l) →
        moda l ≤ x) := by
  obtain ⟨x0, hx0⟩ : ∃ x, x ∈ vecinosValidos l := by
    cases hv : vecinosValidos l with
    | nil => exact absurd hv hne
    | cons a as => exact ⟨a, hv ▸ List.mem_cons_self a as⟩
  have hvalne : valoresUnicos (vecinosValidos l) ≠ [] :=
    List.ne_nil_of_mem ((valoresUnicos_mem _ x0).mpr hx0)
  have hconne : conteosDe (vecinosValidos l) ≠ [] := by
    rw [conteosDe]
    exact fun h => hvalne (List.map_eq_nil_iff.mp h)
  obtain ⟨c, hc, hcmax, hcbef⟩ := np_argmax_nat_spec (conteosDe (vecinosValidos l)) hconne
  rw [conteosDe_getElem?] at hc
  obtain ⟨w, hw0, hwc⟩ : ∃ w, (valoresUnicos (vecinosValidos l))[
      np_argmax_nat (conteosDe (vecinosValidos l))]? = some w ∧
      (vecinosValidos l).count w = c := by
    cases hv : (valoresUnicos (vecinosValidos l))[
        np_argmax_nat (conteosDe (vecinosValidos l))]? with
    | none => rw [hv] at hc; exact absurd hc (by simp)
    | some w =>
      rw [hv] at hc
      exact ⟨w, rfl, Option.some_injective _ hc⟩
  have hmodaeq : moda l = w := by
    rw [moda, if_neg (by simpa using hne), hw0]
    rfl
  rw [hmodaeq]
  have hwmem : w ∈ vecinosValidos l := (valoresUnicos_mem _ w).mp
    (List.mem_iff_getElem?.mpr ⟨_, hw0⟩)
  refine ⟨hwmem, ?_, ?_⟩
  · intro x hx
    rw [hwc]
    obtain ⟨k, hk⟩ := List.mem_iff_getElem?.mp ((valoresUnicos_mem _ x).mpr hx)
    have : (conteosDe (vecinosValidos l))[k]? = some ((vecinosValidos l).count x) := by
      rw [conteosDe_getElem?, hk]
      rfl
    exact hcmax _ (List.mem_iff_getElem?.mpr ⟨k, this⟩)
  · intro x hx hcount
    rw [hwc] at hcount
    obtain ⟨k, hk⟩ := List.mem_iff_getElem?.mp ((valoresUnicos_mem _ x).mpr hx)
    have hck : (conteosDe (vecinosValidos l))[k]? = some c := by
      rw [conteosDe_getElem?, hk]
      simpa using hcount
    have hk0le : np_argmax_nat (conteosDe (vecinosValidos l)) ≤ k := by
      by_contra hgt
      exact hcbef k (by omega) hck
    obtain ⟨hk0lt, hw1⟩ := List.getElem?_eq_some.mp hw0
    obtain ⟨hklt, hx1⟩ := List.getElem?_eq_some.mp hk
    rcases Nat.eq_or_lt_of_le hk0le with hEq | hlt
    · subst hEq
      rw [← hw1, ← hx1]
    · have := (valoresUnicos_sorted (vecinosValidos l)).rel_get_of_lt
        (a := ⟨np_argmax_nat (conteosDe (vecinosValidos l)), hk0lt⟩)
        (b := ⟨k, hklt⟩) (by simpa using hlt)
      simpa [List.get_eq_getElem, hw1, hx1] using this

theorem moda_vacia (vecindario : List ℤ) (h : vecinosValidos vecindario = []) :
    moda vecindario = -1 := by
  rw [moda, if_pos (by simpa using h)]

/-- C8: the majority filter.  Every output pixel is `moda` of the pixel's 3x3
edge-replicated neighborhood; `moda` of a neighborhood with no non-negative
vote is the nodata sentinel `-1`; otherwise it is a most frequent
non-negative vote and the smallest among the tied most frequent ones; and the
spec examples: votes `{1,1,1,2,2,3,-1,-1,-1}` give `1`, an all-nodata
neighborhood gives `-1`. -/
theorem filtro_mayoria :
    (∀ pred i j, i < pred.length → j < ancho pred →
      celdaZ (mwm_filtrado pred) i j = moda (vecindario3x3 pred i j)) ∧
    (∀ vecindario : List ℤ, vecinosValidos vecindario = [] → moda vecindario = -1) ∧
    (∀ vecindario : List ℤ, vecinosValidos vecindario ≠ [] →
      moda vecindario ∈ vecinosValidos vecindario ∧
      (∀ x ∈ vecinosValidos vecindario,
        (vecinosValidos vecindario).count x ≤
          (vecinosValidos vecindario).count (moda vecindario)) ∧
      (∀ x ∈ vecinosValidos vecindario,
        (vecinosValidos vecindario).count x =
          (vecinosValidos vecindario).count (moda vecindario) →
            moda vecindario ≤ x)) ∧
    moda [1, 1, 1, 2, 2, 3, -1, -1, -1] = 1 ∧
    moda [-1, -1, -1, -1, -1, -1, -1, -1, -1] = -1 := by
  refine ⟨?_, moda_vacia, moda_caracterizacion, by decide, by decide⟩
  intro pred i j hi hj
  unfold celdaZ mwm_filtrado
  rw [List.getElem?_map, List.getElem?_range hi]
  simp only [Option.map, Option.getD]
  rw [List.getElem?_map, List.getElem?_range hj]
  rfl

/-- Witness for C8: the filter applied at pixel (0,0) of a concrete 2x2
raster, with the neighborhood vote evaluated concretely. -/
theorem filtro_mayoria_witness :
    (0 : ℕ) < ([[1, 2], [2, 0]] : List (List ℤ)).length ∧
    (0 : ℕ) < ancho ([[1, 2], [2, 0]] : List (List ℤ)) ∧
    celdaZ (mwm_filtrado [[1, 2], [2, 0]]) 0 0 =
      moda (vecindario3x3 [[1, 2], [2, 0]] 0 0) ∧
    celdaZ (mwm_filtrado [[1, 2], [2, 0]]) 0 0 = 1 :=
  ⟨by decide, by decide,
    filtro_mayoria.1 [[1, 2], [2, 0]] 0 0 (by decide) (by decide), by decide⟩

/-! Multi-band writer (`11_NDVI_inta_verano.py`, lines 305-363). -/

/-- `nombres_finales` (line 307): the five fixed labels followed by the
monthly raster names in month order. -/
def nombres_finales (ndvi_nombres : List String) : List String :=
  ["inta_verano", "mediana", "min", "max", "sd"] ++ ndvi_nombres

/-- `bandas_finales` (line 306): category band, the four statistics, then the
monthly bands in month order. -/
def bandas_finales (banda_verano med mn mx sd : Banda)
    (bandas_ndvi : List Banda) : List Banda :=
  [banda_verano, med, mn, mx, sd] ++ bandas_ndvi

/-- The band-name sidecar (lines 360-363): one line per band, written as
`f"Banda {i}: {nombre}"` with 1-based `i`. -/
def lineas_sidecar (nombres : List String) : List String :=
  nombres.enum.map (fun p => "Banda " ++ toString (p.1 + 1) ++ ": " ++ p.2)

theorem lineas_sidecar_getElem? (nombres : List String) (k : ℕ) :
    (lineas_sidecar nombres)[k]? =
      (nombres[k]?).map (fun nombre => "Banda " ++ toString (k + 1) ++ ": " ++ nombre) := by
  rw [lineas_sidecar, List.getElem?_map, List.getElem?_enum]
  cases nombres[k]? <;> rfl

/-- C9 counterexample: the sidecar lines are written with the literal prefix
`Banda` (Spanish), not `Band` as the claim states: already the first line for
the real band labels is `Banda 1: inta_verano`, which differs from
`Band 1: inta_verano`. -/
theorem sidecar_prefijo_contraejemplo :
    (lineas_sidecar (nombres_finales ["NDVI_2023-12"]))[0]? =
      some "Banda 1: inta_verano" ∧
    "Banda 1: inta_verano" ≠ "Band 1: inta_verano" := by
  constructor
  · rfl
  · decide

/-- C9 (amended): the output has exactly `1 + 4 + N` bands in the fixed order
category, median, min, max, standard deviation, then the `N` monthly bands in
month order; the label list matches positionally (same length, fixed five
leading labels, then the month names); and the sidecar has one line per band,
line `k` mapping the 1-based index `k+1` to label `k` in the form
`Banda <n>: <label>`. -/
theorem escritor_multibanda (v med mn mx sd : Banda) (bn : List Banda)
    (nn : List String) (hlen : bn.length = nn.length) :
    (bandas_finales v med mn mx sd bn).length = 1 + 4 + bn.length ∧
    (nombres_finales nn).length = 1 + 4 + nn.length ∧
    (bandas_finales v med mn mx sd bn).length = (nombres_finales nn).length ∧
    (bandas_finales v med mn mx sd bn)[0]? = some v ∧
    (bandas_finales v med mn mx sd bn)[1]? = some med ∧
    (bandas_finales v med mn mx sd bn)[2]? = some mn ∧
    (bandas_finales v med mn mx sd bn)[3]? = some mx ∧
    (bandas_finales v med mn mx sd bn)[4]? = some sd ∧
    (∀ k, (bandas_finales v med mn mx sd bn)[5 + k]? = bn[k]?) ∧
    (nombres_finales nn)[0]? = some "inta_verano" ∧
    (nombres_finales nn)[1]? = some "mediana" ∧
    (nombres_finales nn)[2]? = some "min" ∧
    (nombres_finales nn)[3]? = some "max" ∧
    (nombres_finales nn)[4]? = some "sd" ∧
    (∀ k, (nombres_finales nn)[5 + k]? = nn[k]?) ∧
    (lineas_sidecar (nombres_finales nn)).length = 1 + 4 + nn.length ∧
    (∀ k nombre, (nombres_finales nn)[k]? = some nombre →
      (lineas_sidecar (nombres_finales nn))[k]? =
        some ("Banda " ++ toString (k + 1) ++ ": " ++ nombre)) := by
  refine ⟨?_, ?_, ?_, by simp [bandas_finales], by simp [bandas_finales],
    by simp [bandas_finales], by simp [bandas_finales], by simp [bandas_finales], ?_,
    by simp [nombres_finales], by simp [nombres_finales], by simp [nombres_finales],
    by simp [nombres_finales], by simp [nombres_finales], ?_, ?_, ?_⟩
  · simp [bandas_finales]
    omega
  · simp [nombres_finales]
    omega
  · simp [bandas_finales, nombres_finales]
    omega
  · intro k
    show (v :: med :: mn :: mx :: sd :: bn)[5 + k]? = bn[k]?
    rw [show 5 + k = k + 1 + 1 + 1 + 1 + 1 from by omega]
    simp [List.getElem?_cons_succ]
  · intro k
    show (("inta_verano" : String) :: "mediana" :: "min" :: "max" :: "sd" :: nn)[5 + k]? = nn[k]?
    rw [show 5 + k = k + 1 + 1 + 1 + 1 + 1 from by omega]
    simp [List.getElem?_cons_succ]
  · rw [lineas_sidecar, List.length_map, List.enum_length]
    simp [nombres_finales]
    omega
  · intro k nombre hk
    rw [lineas_sidecar_getElem?, hk]
    rfl

/-- Witness for C9 (amended) at the real seven month labels. -/
theorem escritor_multibanda_witness :
    ([[], [], [], [], [], [], []] : List Banda).length =
      (["NDVI_2023-12", "NDVI_2024-01", "NDVI_2024-02", "NDVI_2024-03",
        "NDVI_2024-04", "NDVI_2024-05", "NDVI_2024-06"] : List String).length ∧
    (bandas_finales [] [] [] [] [] [[], [], [], [], [], [], []]).length = 1 + 4 + 7 ∧
    (nombres_finales ["NDVI_2023-12", "NDVI_2024-01", "NDVI_2024-02", "NDVI_2024-03",
        "NDVI_2024-04", "NDVI_2024-05", "NDVI_2024-06"]).length = 1 + 4 + 7 ∧
    (lineas_sidecar (nombres_finales ["NDVI_2023-12", "NDVI_2024-01", "NDVI_2024-02",
        "NDVI_2024-03", "NDVI_2024-04", "NDVI_2024-05", "NDVI_2024-06"]))[5]? =
      some "Banda 6: NDVI_2023-12" :=
  ⟨by decide,
    ((escritor_multibanda [] [] [] [] [] [[], [], [], [], [], [], []]
      ["NDVI_2023-12", "NDVI_2024-01", "NDVI_2024-02", "NDVI_2024-03",
        "NDVI_2024-04", "NDVI_2024-05", "NDVI_2024-06"] (by decide)).1),
    ((escritor_multibanda [] [] [] [] [] [[], [], [], [], [], [], []]
      ["NDVI_2023-12", "NDVI_2024-01", "NDVI_2024-02", "NDVI_2024-03",
        "NDVI_2024-04", "NDVI_2024-05", "NDVI_2024-06"] (by decide)).2.1),
    by rfl⟩

/-! Missing-input handling (C6). -/

/-- `RECORTE_VERANO_PATH` of `11_NDVI_inta_verano.py` (line 27), relative to
the project root. -/
def RECORTE_VERANO_PATH : String := "data/proc/recorte_verano_GTiff.tif"

/-- `MNC_VERANO_PATH` of the Coronel Suarez script (line 226). -/
def MNC_VERANO_PATH : String := "data/raw/INTA_23_24/MNC_verano-2024.tif"

/-- Lines 54-57 of `11_NDVI_inta_verano.py`: if the fixed input raster is
absent, print a diagnostic containing the path and `exit(1)` before any
output is produced. -/
def verificar_recorte_verano (existe : Bool) : Except Abort Unit :=
  if existe then .ok ()
  else .error { codigo := 1
                mensaje := "[ERROR] No se encuentra el archivo: " ++ RECORTE_VERANO_PATH }

/-- Lines 57-67 of both scripts: monthly rasters are probed one by one; a
missing month only prints `[WARN]` and is skipped. -/
def filtrar_meses (existe : String → Bool) (meses : List String) : List String :=
  meses.filter existe

/-- Lines 65-73 (`11_NDVI_inta_verano.py` 71-73): abort only when no monthly
raster at all was found. -/
def verificar_ndvi (archivos : List String) : Except Abort (List String) :=
  if archivos.isEmpty then
    .error { codigo := 1, mensaje := "[ERROR] No se encontraron rasters NDVI validos." }
  else .ok archivos

/-- Lines 229-236 of the Coronel Suarez script: when `MNC_verano-2024.tif` is
absent the script prints `[ERROR] ... MNC_VERANO_PATH` and
`Usando banda dummy (todos nodata)...` but does NOT exit: it continues with
an all-missing dummy band of the common window's shape.  When the file is
present, it is processed (`procesar` stands for the chunked reprojection of
lines 233-343). -/
def paso_mnc_cs (existe : Bool) (filas columnas : ℕ) (procesar : Unit → Banda) : Except Abort Banda :=
  if existe then .ok (procesar ())
  else .ok (List.replicate filas (List.replicate columnas none))

/-- C6 counterexample: with the Coronel Suarez MNC raster absent, the
pipeline step does not abort — it succeeds with a dummy all-missing band, so
the claim "every absent required input raster aborts the run before any
output" is false on the code. -/
theorem mnc_faltante_no_aborta :
    paso_mnc_cs false 2 2 (fun _ => []) =
      .ok [[none, none], [none, none]] ∧
    ∀ e, paso_mnc_cs false 2 2 (fun _ => []) ≠ .error e := by
  constructor
  · rfl
  · intro e h
    exact absurd h (by simp [paso_mnc_cs])

/-- C6 (amended): in the INTA script the absent fixed input raster aborts
with exit code 1 and a diagnostic naming the path, and an empty monthly
raster collection aborts with exit code 1; but a missing individual monthly
raster is only skipped (with a warning), and in the Coronel Suarez script an
absent MNC raster does not abort — the run continues with an all-missing
dummy category band. -/
theorem manejo_archivos_faltantes :
    (verificar_recorte_verano false =
      .error { codigo := 1
               mensaje := "[ERROR] No se encuentra el archivo: " ++ RECORTE_VERANO_PATH }) ∧
    (verificar_recorte_verano true = .ok ()) ∧
    (verificar_ndvi [] =
      .error { codigo := 1, mensaje := "[ERROR] No se encontraron rasters NDVI validos." }) ∧
    (∀ a l, verificar_ndvi (a :: l) = .ok (a :: l)) ∧
    (∀ existe meses mes, mes ∈ filtrar_meses existe meses → existe mes = true) ∧
    (∀ filas columnas procesar, paso_mnc_cs false filas columnas procesar =
      .ok (List.replicate filas (List.replicate columnas none))) := by
  refine ⟨rfl, rfl, rfl, fun a l => rfl, ?_, fun f c p => rfl⟩
  intro existe meses mes hm
  exact List.of_mem_filter hm

/-- Witness for C6 (amended): a present month passes the existence filter. -/
theorem manejo_archivos_faltantes_witness :
    "NDVI_2023-12" ∈ filtrar_meses (fun m => m == "NDVI_2023-12")
      ["NDVI_2023-12", "NDVI_2024-01"] ∧
    (fun (m : String) => m == "NDVI_2023-12") "NDVI_2023-12" = true :=
  ⟨by decide,
    manejo_archivos_faltantes.2.2.2.2.1 (fun m => m == "NDVI_2023-12")
      ["NDVI_2023-12", "NDVI_2024-01"] "NDVI_2023-12" (by decide)⟩

/-! Windowed reprojector (C7): the chunked reprojection of
`Coronel Suarez/11_NDVI_coronel_suarez_verano.py`, lines 239-343, versus the
single-pass `rasterio.warp.reproject` call of `11_NDVI_inta_verano.py`,
lines 233-241.

`rasterio.warp.reproject`, `rasterio.transform.from_bounds`,
`rasterio.windows` and `transform_bounds` are library code that is not part
of this repository; they are modelled from the spec (section 4.3) below, in
exact rational arithmetic and for the case of a shared CRS, where
`transform_bounds` is the identity:
* an affine transform built by `from_bounds` is rectilinear: pixel `(row i,
  col j)` spans geographic `x`-range `left + j*dx .. left + (j+1)*dx` and
  `y`-range `top - (i+1)*dy .. top - i*dy`;
* nearest-neighbor reprojection maps each destination pixel center through
  the destination transform and back through the source transform, and takes
  the source pixel containing that point; a center falling outside the
  source extent leaves the destination pixel missing;
* the source-pixel window of a tile (`from_bounds` on the tile bounds,
  then `round_lengths().round_offsets()`) is modelled as the integer window
  covering the fractional window: floored offsets, ceiled ends ("compute the
  corresponding source-pixel window", spec 4.3); the clamp to the source
  extent is repository code (lines 296-300) and is modelled exactly.
The tiling loop, tile carving, empty-intersection skip and per-tile
transforms follow the repository code. -/

/-- A rectilinear affine transform as built by
`rasterio.transform.from_bounds`: `x = left + col*dx`, `y = top - row*dy`. -/
structure Transformacion where
  left : ℚ
  top : ℚ
  dx : ℚ
  dy : ℚ
deriving Repr, DecidableEq

/-- `rasterio.transform.from_bounds(left, bottom, right, top, width, height)`.
Modelled from the spec: the transform mapping pixel `(0,0)..(height,width)`
linearly onto the given bounds. -/
def from_bounds (l b r t : ℚ) (w h : ℕ) : Transformacion :=
  { left := l, top := t, dx := (r - l) / (w : ℚ), dy := (t - b) / (h : ℚ) }

/-- A source raster for reprojection: its grid size and its samples
(`none` = nodata; the nodata substitution commutes with nearest-neighbor
copying, so sampling in `Option ℚ` models both conversion orders). -/
structure Fuente where
  alto : ℕ
  ancho : ℕ
  px : ℤ → ℤ → Option ℚ

/-- Fractional source column of the center of destination column `j`. -/
def u_col (Tsrc Tdst : Transformacion) (j : ℕ) : ℚ :=
  ((Tdst.left + ((j : ℚ) + 1/2) * Tdst.dx) - Tsrc.left) / Tsrc.dx

/-- Fractional source row of the center of destination row `i`. -/
def v_fila (Tsrc Tdst : Transformacion) (i : ℕ) : ℚ :=
  ((Tsrc.top - Tdst.top) + ((i : ℚ) + 1/2) * Tdst.dy) / Tsrc.dy

/-- Modelled from the spec: `rasterio.warp.reproject` with
`Resampling.nearest` (library code, not in src/).  Destination pixel `(i,j)`
takes the source pixel containing its center; a center outside the source
extent stays missing. -/
def reproyectar_nearest (src : Fuente) (Tsrc Tdst : Transformacion) (i j : ℕ) : Option ℚ :=
  if 0 ≤ ⌊v_fila Tsrc Tdst i⌋ ∧ ⌊v_fila Tsrc Tdst i⌋ < (src.alto : ℤ) ∧
      0 ≤ ⌊u_col Tsrc Tdst j⌋ ∧ ⌊u_col Tsrc Tdst j⌋ < (src.ancho : ℤ) then
    src.px ⌊v_fila Tsrc Tdst i⌋ ⌊u_col Tsrc Tdst j⌋
  else none

/-- Left geographic bound of destination tile column `c0`
(`rasterio.windows.bounds`, line 282). -/
def tile_left (Tdst : Transformacion) (c0 : ℕ) : ℚ := Tdst.left + (c0 : ℚ) * Tdst.dx

/-- Top geographic bound of destination tile row `r0`. -/
def tile_top (Tdst : Transformacion) (r0 : ℕ) : ℚ := Tdst.top - (r0 : ℚ) * Tdst.dy

/-- Fractional `col_off` of the source window of a tile starting at column
`c0` (`from_bounds(*ver_bounds, src.transform)`, line 287, same CRS). -/
def col_offF (Tsrc Tdst : Transformacion) (c0 : ℕ) : ℚ :=
  (tile_left Tdst c0 - Tsrc.left) / Tsrc.dx

/-- Fractional `row_off` of the source window of a tile starting at row `r0`. -/
def row_offF (Tsrc Tdst : Transformacion) (r0 : ℕ) : ℚ :=
  (Tsrc.top - tile_top Tdst r0) / Tsrc.dy

/-- Fractional width of the source window of tile columns `[c0, c1)`. -/
def widthF (Tsrc Tdst : Transformacion) (c0 c1 : ℕ) : ℚ :=
  (tile_left Tdst c1 - tile_left Tdst c0) / Tsrc.dx

/-- Fractional height of the source window of tile rows `[r0, r1)`. -/
def heightF (Tsrc Tdst : Transformacion) (r0 r1 : ℕ) : ℚ :=
  (tile_top Tdst r0 - tile_top Tdst r1) / Tsrc.dy

/-- The integer source window of a destination tile `[r0,r1) x [c0,c1)`:
the fractional window rounded to the covering integer window
(`round_lengths().round_offsets()`, line 288, modelled from the spec), then
clamped to the source extent exactly as lines 296-300 do
(`col_off_adj = max(0, col_off)`,
`width_adj = min(width, src.width - col_off_adj)`). -/
structure VentanaFuente where
  col_off : ℤ
  row_off : ℤ
  width : ℤ
  height : ℤ
deriving Repr, DecidableEq

def ventana_fuente (src : Fuente) (Tsrc Tdst : Transformacion)
    (r0 r1 c0 c1 : ℕ) : VentanaFuente :=
  { col_off := max 0 ⌊col_offF Tsrc Tdst c0⌋
    row_off := max 0 ⌊row_offF Tsrc Tdst r0⌋
    width := min (⌈col_offF Tsrc Tdst c0 + widthF Tsrc Tdst c0 c1⌉ - ⌊col_offF Tsrc Tdst c0⌋)
      ((src.ancho : ℤ) - max 0 ⌊col_offF Tsrc Tdst c0⌋)
    height := min (⌈row_offF Tsrc Tdst r0 + heightF Tsrc Tdst r0 r1⌉ - ⌊row_offF Tsrc Tdst r0⌋)
      ((src.alto : ℤ) - max 0 ⌊row_offF Tsrc Tdst r0⌋) }

/-- `ver_chunk_raw = src.read(1, window=ver_window)` (line 305): the source
restricted to the clamped window. -/
def fuente_ventana (src : Fuente) (vw : VentanaFuente) : Fuente :=
  { alto := vw.height.toNat
    ancho := vw.width.toNat
    px := fun r c => src.px (vw.row_off + r) (vw.col_off + c) }

/-- `src_transform_ver` (lines 308-313): `from_bounds` of the clamped
window's geographic bounds with the window's size. -/
def transformada_ventana (Tsrc : Transformacion) (vw : VentanaFuente) : Transformacion :=
  from_bounds (Tsrc.left + (vw.col_off : ℚ) * Tsrc.dx)
    (Tsrc.top - ((vw.row_off : ℚ) + (vw.height : ℚ)) * Tsrc.dy)
    (Tsrc.left + ((vw.col_off : ℚ) + (vw.width : ℚ)) * Tsrc.dx)
    (Tsrc.top - (vw.row_off : ℚ) * Tsrc.dy)
    vw.width.toNat vw.height.toNat

/-- `dst_transform_ver` (lines 314-317): `from_bounds` of the tile's bounds
with the tile's size. -/
def transformada_tile (Tdst : Transformacion) (r0 r1 c0 c1 : ℕ) : Transformacion :=
  from_bounds (tile_left Tdst c0) (tile_top Tdst r1)
    (tile_left Tdst c1) (tile_top Tdst r0) (c1 - c0) (r1 - r0)

/-- One iteration of the tile loop (lines 265-339): carve the destination
tile, skip it when empty (line 273), compute and clamp the source window,
skip when the intersection with the source extent is empty (line 303,
leaving the tile missing), otherwise reproject the window into the tile
(lines 319-335). -/
def procesar_ventana (src : Fuente) (Tsrc Tdst : Transformacion)
    (H W CHUNK : ℕ) (ti tj : ℕ) (dest : ℕ → ℕ → Option ℚ) : ℕ → ℕ → Option ℚ :=
  let r0 := ti * CHUNK
  let r1 := min ((ti + 1) * CHUNK) H
  let c0 := tj * CHUNK
  let c1 := min ((tj + 1) * CHUNK) W
  if r1 ≤ r0 ∨ c1 ≤ c0 then dest
  else
    let vw := ventana_fuente src Tsrc Tdst r0 r1 c0 c1
    if 0 < vw.width ∧ 0 < vw.height then
      fun i j =>
        if r0 ≤ i ∧ i < r1 ∧ c0 ≤ j ∧ j < c1 then
          reproyectar_nearest (fuente_ventana src vw)
            (transformada_ventana Tsrc vw)
            (transformada_tile Tdst r0 r1 c0 c1) (i - r0) (j - c0)
        else dest i j
    else dest

/-- The tile grid of lines 257-266: row-major tiles of size `CHUNK`. -/
def ventanas (H W CHUNK : ℕ) : List (ℕ × ℕ) :=
  (List.range ((H + CHUNK - 1) / CHUNK)).flatMap (fun ti =>
    (List.range ((W + CHUNK - 1) / CHUNK)).map (fun tj => (ti, tj)))

/-- The chunked reprojection (lines 234-343): destination initialized to
all-missing, then each tile processed in order. -/
def reproyectar_por_ventanas (src : Fuente) (Tsrc Tdst : Transformacion)
    (H W CHUNK : ℕ) : ℕ → ℕ → Option ℚ :=
  (ventanas H W CHUNK).foldl
    (fun dest t => procesar_ventana src Tsrc Tdst H W CHUNK t.1 t.2 dest)
    (fun _ _ => none)

theorem floor_lt_ceil_de_lt (x y : ℚ) (h : x < y) : ⌊x⌋ < ⌈y⌉ := by
  have h1 : (⌊x⌋ : ℚ) ≤ x := Int.floor_le x
  exact_mod_cast lt_of_le_of_lt h1 (lt_of_lt_of_le h (Int.le_ceil y))

/-- Floor bounds for a pixel center inside a tile, along one axis: the floored
fractional offset is at most the center's source index, which is strictly
below the ceiling of the fractional end. -/
theorem cotas_abstractas (base d s : ℚ) (hd : 0 < d) (hs : 0 < s)
    (k0 k1 k : ℕ) (h0 : k0 ≤ k) (h1 : k < k1) :
    ⌊(base + (k0 : ℚ) * d) / s⌋ ≤ ⌊(base + ((k : ℚ) + 1/2) * d) / s⌋ ∧
    ⌊(base + ((k : ℚ) + 1/2) * d) / s⌋ <
      ⌈(base + (k0 : ℚ) * d) / s +
        ((base + (k1 : ℚ) * d) - (base + (k0 : ℚ) * d)) / s⌉ := by
  have hk0 : (k0 : ℚ) ≤ (k : ℚ) := by exact_mod_cast h0
  have hk1 : (k : ℚ) + 1 ≤ (k1 : ℚ) := by exact_mod_cast h1
  constructor
  · apply Int.floor_le_floor
    apply (div_le_div_iff_of_pos_right hs).mpr
    have : (k0 : ℚ) * d ≤ ((k : ℚ) + 1/2) * d :=
      mul_le_mul_of_nonneg_right (by linarith) hd.le
    linarith
  · have hsum : (base + (k0 : ℚ) * d) / s +
        ((base + (k1 : ℚ) * d) - (base + (k0 : ℚ) * d)) / s =
        (base + (k1 : ℚ) * d) / s := by
      rw [div_add_div_same]
      ring_nf
    rw [hsum]
    apply floor_lt_ceil_de_lt
    apply (div_lt_div_iff_of_pos_right hs).mpr
    have : ((k : ℚ) + 1/2) * d < (k1 : ℚ) * d :=
      mul_lt_mul_of_pos_right (by linarith) hd
    linarith

theorem transformada_tile_eq (Tdst : Transformacion) (r0 r1 c0 c1 : ℕ)
    (hr : r0 < r1) (hc : c0 < c1) :
    transformada_tile Tdst r0 r1 c0 c1 =
      { left := tile_left Tdst c0, top := tile_top Tdst r0,
        dx := Tdst.dx, dy := Tdst.dy } := by
  unfold transformada_tile from_bounds
  have hcc : ((c1 - c0 : ℕ) : ℚ) = (c1 : ℚ) - (c0 : ℚ) := Nat.cast_sub hc.le
  have hrr : ((r1 - r0 : ℕ) : ℚ) = (r1 : ℚ) - (r0 : ℚ) := Nat.cast_sub hr.le
  have hcne : (c1 : ℚ) - (c0 : ℚ) ≠ 0 := by
    have : (c0 : ℚ) < (c1 : ℚ) := by exact_mod_cast hc
    linarith
  have hrne : (r1 : ℚ) - (r0 : ℚ) ≠ 0 := by
    have : (r0 : ℚ) < (r1 : ℚ) := by exact_mod_cast hr
    linarith
  simp only [Transformacion.mk.injEq]
  refine ⟨trivial, trivial, ?_, ?_⟩
  · rw [hcc]
    have hnum : tile_left Tdst c1 - tile_left Tdst c0 =
        ((c1 : ℚ) - (c0 : ℚ)) * Tdst.dx := by
      unfold tile_left
      ring
    rw [hnum, mul_div_cancel_left₀ _ hcne]
  · rw [hrr]
    have hnum : tile_top Tdst r0 - tile_top Tdst r1 =
        ((r1 : ℚ) - (r0 : ℚ)) * Tdst.dy := by
      unfold tile_top
      ring
    rw [hnum, mul_div_cancel_left₀ _ hrne]

theorem transformada_ventana_eq (Tsrc : Transformacion) (vw : VentanaFuente)
    (hw : 0 < vw.width) (hh : 0 < vw.height) :
    transformada_ventana Tsrc vw =
      { left := Tsrc.left + (vw.col_off : ℚ) * Tsrc.dx
        top := Tsrc.top - (vw.row_off : ℚ) * Tsrc.dy
        dx := Tsrc.dx, dy := Tsrc.dy } := by
  unfold transformada_ventana from_bounds
  have hwq : ((vw.width.toNat : ℕ) : ℚ) = (vw.width : ℚ) := by
    exact_mod_cast congrArg (fun z : ℤ => (z : ℚ)) (Int.toNat_of_nonneg hw.le)
  have hhq : ((vw.height.toNat : ℕ) : ℚ) = (vw.height : ℚ) := by
    exact_mod_cast congrArg (fun z : ℤ => (z : ℚ)) (Int.toNat_of_nonneg hh.le)
  have hwne : (vw.width : ℚ) ≠ 0 := by
    have : (0 : ℚ) < (vw.width : ℚ) := by exact_mod_cast hw
    linarith
  have hhne : (vw.height : ℚ) ≠ 0 := by
    have : (0 : ℚ) < (vw.height : ℚ) := by exact_mod_cast hh
    linarith
  simp only [Transformacion.mk.injEq]
  refine ⟨trivial, trivial, ?_, ?_⟩
  · rw [hwq]
    have hnum : Tsrc.left + ((vw.col_off : ℚ) + (vw.width : ℚ)) * Tsrc.dx -
        (Tsrc.left + (vw.col_off : ℚ) * Tsrc.dx) = (vw.width : ℚ) * Tsrc.dx := by
      ring
    rw [hnum, mul_div_cancel_left₀ _ hwne]
  · rw [hhq]
    have hnum : Tsrc.top - (vw.row_off : ℚ) * Tsrc.dy -
        (Tsrc.top - ((vw.row_off : ℚ) + (vw.height : ℚ)) * Tsrc.dy) =
        (vw.height : ℚ) * Tsrc.dy := by
      ring
    rw [hnum, mul_div_cancel_left₀ _ hhne]

theorem cotas_col (Tsrc Tdst : Transformacion) (hsdx : 0 < Tsrc.dx)
    (hddx : 0 < Tdst.dx) (c0 c1 j : ℕ) (hc0 : c0 ≤ j) (hc1 : j < c1) :
    ⌊col_offF Tsrc Tdst c0⌋ ≤ ⌊u_col Tsrc Tdst j⌋ ∧
    ⌊u_col Tsrc Tdst j⌋ < ⌈col_offF Tsrc Tdst c0 + widthF Tsrc Tdst c0 c1⌉ := by
  have habs := cotas_abstractas (Tdst.left - Tsrc.left) Tdst.dx Tsrc.dx hddx hsdx
    c0 c1 j hc0 hc1
  have h1 : (Tdst.left - Tsrc.left + (c0 : ℚ) * Tdst.dx) / Tsrc.dx =
      col_offF Tsrc Tdst c0 := by
    unfold col_offF tile_left
    ring
  have h2 : (Tdst.left - Tsrc.left + ((j : ℚ) + 1/2) * Tdst.dx) / Tsrc.dx =
      u_col Tsrc Tdst j := by
    unfold u_col
    ring
  have h3 : ((Tdst.left - Tsrc.left + (c1 : ℚ) * Tdst.dx) -
      (Tdst.left - Tsrc.left + (c0 : ℚ) * Tdst.dx)) / Tsrc.dx =
      widthF Tsrc Tdst c0 c1 := by
    unfold widthF tile_left
    ring
  rw [h1, h2, h3] at habs
  exact habs

theorem cotas_fila (Tsrc Tdst : Transformacion) (hsdy : 0 < Tsrc.dy)
    (hddy : 0 < Tdst.dy) (r0 r1 i : ℕ) (hr0 : r0 ≤ i) (hr1 : i < r1) :
    ⌊row_offF Tsrc Tdst r0⌋ ≤ ⌊v_fila Tsrc Tdst i⌋ ∧
    ⌊v_fila Tsrc Tdst i⌋ < ⌈row_offF Tsrc Tdst r0 + heightF Tsrc Tdst r0 r1⌉ := by
  have habs := cotas_abstractas (Tsrc.top - Tdst.top) Tdst.dy Tsrc.dy hddy hsdy
    r0 r1 i hr0 hr1
  have h1 : (Tsrc.top - Tdst.top + (r0 : ℚ) * Tdst.dy) / Tsrc.dy =
      row_offF Tsrc Tdst r0 := by
    unfold row_offF tile_top
    ring
  have h2 : (Tsrc.top - Tdst.top + ((i : ℚ) + 1/2) * Tdst.dy) / Tsrc.dy =
      v_fila Tsrc Tdst i := by
    unfold v_fila
    ring
  have h3 : ((Tsrc.top - Tdst.top + (r1 : ℚ) * Tdst.dy) -
      (Tsrc.top - Tdst.top + (r0 : ℚ) * Tdst.dy)) / Tsrc.dy =
      heightF Tsrc Tdst r0 r1 := by
    unfold heightF tile_top
    ring
  rw [h1, h2, h3] at habs
  exact habs

theorem tile_escribe (src : Fuente) (Tsrc Tdst : Transformacion)
    (hsdx : 0 < Tsrc.dx) (hsdy : 0 < Tsrc.dy) (hddx : 0 < Tdst.dx) (hddy : 0 < Tdst.dy)
    (r0 r1 c0 c1 i j : ℕ) (hr0 : r0 ≤ i) (hr1 : i < r1) (hc0 : c0 ≤ j) (hc1 : j < c1)
    (hvw : 0 < (ventana_fuente src Tsrc Tdst r0 r1 c0 c1).width ∧
      0 < (ventana_fuente src Tsrc Tdst r0 r1 c0 c1).height) :
    reproyectar_nearest (fuente_ventana src (ventana_fuente src Tsrc Tdst r0 r1 c0 c1))
      (transformada_ventana Tsrc (ventana_fuente src Tsrc Tdst r0 r1 c0 c1))
      (transformada_tile Tdst r0 r1 c0 c1) (i - r0) (j - c0) =
    reproyectar_nearest src Tsrc Tdst i j := by
  have hsdxne : Tsrc.dx ≠ 0 := ne_of_gt hsdx
  have hsdyne : Tsrc.dy ≠ 0 := ne_of_gt hsdy
  set vw := ventana_fuente src Tsrc Tdst r0 r1 c0 c1 with hvwdef
  obtain ⟨hbc1, hbc2⟩ := cotas_col Tsrc Tdst hsdx hddx c0 c1 j hc0 hc1
  obtain ⟨hbr1, hbr2⟩ := cotas_fila Tsrc Tdst hsdy hddy r0 r1 i hr0 hr1
  rw [transformada_ventana_eq Tsrc vw hvw.1 hvw.2,
    transformada_tile_eq Tdst r0 r1 c0 c1 (by omega) (by omega)]
  have hu : u_col
      { left := Tsrc.left + (vw.col_off : ℚ) * Tsrc.dx
        top := Tsrc.top - (vw.row_off : ℚ) * Tsrc.dy
        dx := Tsrc.dx, dy := Tsrc.dy }
      { left := tile_left Tdst c0, top := tile_top Tdst r0,
        dx := Tdst.dx, dy := Tdst.dy } (j - c0) =
      u_col Tsrc Tdst j - (vw.col_off : ℚ) := by
    unfold u_col tile_left
    dsimp only
    rw [Nat.cast_sub hc0]
    field_simp
    ring
  have hv : v_fila
      { left := Tsrc.left + (vw.col_off : ℚ) * Tsrc.dx
        top := Tsrc.top - (vw.row_off : ℚ) * Tsrc.dy
        dx := Tsrc.dx, dy := Tsrc.dy }
      { left := tile_left Tdst c0, top := tile_top Tdst r0,
        dx := Tdst.dx, dy := Tdst.dy } (i - r0) =
      v_fila Tsrc Tdst i - (vw.row_off : ℚ) := by
    unfold v_fila tile_top
    dsimp only
    rw [Nat.cast_sub hr0]
    field_simp
    ring
  unfold reproyectar_nearest
  rw [hu, hv, Int.floor_sub_int, Int.floor_sub_int]
  have hfa : ((fuente_ventana src vw).alto : ℤ) = vw.height := by
    simp [fuente_ventana, Int.toNat_of_nonneg hvw.2.le]
  have hfw : ((fuente_ventana src vw).ancho : ℤ) = vw.width := by
    simp [fuente_ventana, Int.toNat_of_nonneg hvw.1.le]
  rw [hfa, hfw]
  have hco : vw.col_off = max 0 ⌊col_offF Tsrc Tdst c0⌋ := rfl
  have hro : vw.row_off = max 0 ⌊row_offF Tsrc Tdst r0⌋ := rfl
  have hwd : vw.width =
      min (⌈col_offF Tsrc Tdst c0 + widthF Tsrc Tdst c0 c1⌉ - ⌊col_offF Tsrc Tdst c0⌋)
        ((src.ancho : ℤ) - max 0 ⌊col_offF Tsrc Tdst c0⌋) := rfl
  have hht : vw.height =
      min (⌈row_offF Tsrc Tdst r0 + heightF Tsrc Tdst r0 r1⌉ - ⌊row_offF Tsrc Tdst r0⌋)
        ((src.alto : ℤ) - max 0 ⌊row_offF Tsrc Tdst r0⌋) := rfl
  have hguard : (0 ≤ ⌊v_fila Tsrc Tdst i⌋ - vw.row_off ∧
      ⌊v_fila Tsrc Tdst i⌋ - vw.row_off < vw.height ∧
      0 ≤ ⌊u_col Tsrc Tdst j⌋ - vw.col_off ∧
      ⌊u_col Tsrc Tdst j⌋ - vw.col_off < vw.width) ↔
      (0 ≤ ⌊v_fila Tsrc Tdst i⌋ ∧ ⌊v_fila Tsrc Tdst i⌋ < (src.alto : ℤ) ∧
       0 ≤ ⌊u_col Tsrc Tdst j⌋ ∧ ⌊u_col Tsrc Tdst j⌋ < (src.ancho : ℤ)) := by
    rw [hco, hro, hwd, hht]
    omega
  by_cases hg : 0 ≤ ⌊v_fila Tsrc Tdst i⌋ ∧ ⌊v_fila Tsrc Tdst i⌋ < (src.alto : ℤ) ∧
      0 ≤ ⌊u_col Tsrc Tdst j⌋ ∧ ⌊u_col Tsrc Tdst j⌋ < (src.ancho : ℤ)
  · rw [if_pos hg, if_pos (hguard.mpr hg)]
    show src.px (vw.row_off + (⌊v_fila Tsrc Tdst i⌋ - vw.row_off))
      (vw.col_off + (⌊u_col Tsrc Tdst j⌋ - vw.col_off)) = _
    congr 1 <;> omega
  · rw [if_neg hg, if_neg (fun h => hg (hguard.mp h))]

theorem tile_invalido (src : Fuente) (Tsrc Tdst : Transformacion)
    (hsdx : 0 < Tsrc.dx) (hsdy : 0 < Tsrc.dy) (hddx : 0 < Tdst.dx) (hddy : 0 < Tdst.dy)
    (r0 r1 c0 c1 i j : ℕ) (hr0 : r0 ≤ i) (hr1 : i < r1) (hc0 : c0 ≤ j) (hc1 : j < c1)
    (hinv : ¬ (0 < (ventana_fuente src Tsrc Tdst r0 r1 c0 c1).width ∧
      0 < (ventana_fuente src Tsrc Tdst r0 r1 c0 c1).height)) :
    reproyectar_nearest src Tsrc Tdst i j = none := by
  obtain ⟨hbc1, hbc2⟩ := cotas_col Tsrc Tdst hsdx hddx c0 c1 j hc0 hc1
  obtain ⟨hbr1, hbr2⟩ := cotas_fila Tsrc Tdst hsdy hddy r0 r1 i hr0 hr1
  have hwd : (ventana_fuente src Tsrc Tdst r0 r1 c0 c1).width =
      min (⌈col_offF Tsrc Tdst c0 + widthF Tsrc Tdst c0 c1⌉ - ⌊col_offF Tsrc Tdst c0⌋)
        ((src.ancho : ℤ) - max 0 ⌊col_offF Tsrc Tdst c0⌋) := rfl
  have hht : (ventana_fuente src Tsrc Tdst r0 r1 c0 c1).height =
      min (⌈row_offF Tsrc Tdst r0 + heightF Tsrc Tdst r0 r1⌉ - ⌊row_offF Tsrc Tdst r0⌋)
        ((src.alto : ℤ) - max 0 ⌊row_offF Tsrc Tdst r0⌋) := rfl
  rw [hwd, hht] at hinv
  unfold reproyectar_nearest
  rw [if_neg]
  intro hg
  obtain ⟨hg1, hg2, hg3, hg4⟩ := hg
  omega

/-- A tile whose destination region does not contain `(i, j)` leaves the
pixel untouched. -/
theorem procesar_no_toca (src : Fuente) (Tsrc Tdst : Transformacion)
    (H W CHUNK ti tj i j : ℕ) (dest : ℕ → ℕ → Option ℚ)
    (h : ¬ (ti * CHUNK ≤ i ∧ i < min ((ti + 1) * CHUNK) H ∧
            tj * CHUNK ≤ j ∧ j < min ((tj + 1) * CHUNK) W)) :
    procesar_ventana src Tsrc Tdst H W CHUNK ti tj dest i j = dest i j := by
  unfold procesar_ventana
  split
  · rfl
  · dsimp only
    split
    · exact if_neg h
    · rfl

/-- A tile with an empty clamped source window leaves every pixel untouched. -/
theorem procesar_invalido (src : Fuente) (Tsrc Tdst : Transformacion)
    (H W CHUNK ti tj i j : ℕ) (dest : ℕ → ℕ → Option ℚ)
    (hinv : ¬ (0 < (ventana_fuente src Tsrc Tdst (ti * CHUNK) (min ((ti + 1) * CHUNK) H)
        (tj * CHUNK) (min ((tj + 1) * CHUNK) W)).width ∧
      0 < (ventana_fuente src Tsrc Tdst (ti * CHUNK) (min ((ti + 1) * CHUNK) H)
        (tj * CHUNK) (min ((tj + 1) * CHUNK) W)).height)) :
    procesar_ventana src Tsrc Tdst H W CHUNK ti tj dest i j = dest i j := by
  unfold procesar_ventana
  split
  · rfl
  · dsimp only
    split
    · next hval => exact absurd hval hinv
    · rfl

/-- A tile with a non-empty window writes the single-pass value at every
pixel of its region, whatever the destination already holds. -/
theorem procesar_escribe (src : Fuente) (Tsrc Tdst : Transformacion)
    (hsdx : 0 < Tsrc.dx) (hsdy : 0 < Tsrc.dy) (hddx : 0 < Tdst.dx) (hddy : 0 < Tdst.dy)
    (H W CHUNK ti tj i j : ℕ) (dest : ℕ → ℕ → Option ℚ)
    (hreg : ti * CHUNK ≤ i ∧ i < min ((ti + 1) * CHUNK) H ∧
            tj * CHUNK ≤ j ∧ j < min ((tj + 1) * CHUNK) W)
    (hval : 0 < (ventana_fuente src Tsrc Tdst (ti * CHUNK) (min ((ti + 1) * CHUNK) H)
        (tj * CHUNK) (min ((tj + 1) * CHUNK) W)).width ∧
      0 < (ventana_fuente src Tsrc Tdst (ti * CHUNK) (min ((ti + 1) * CHUNK) H)
        (tj * CHUNK) (min ((tj + 1) * CHUNK) W)).height) :
    procesar_ventana src Tsrc Tdst H W CHUNK ti tj dest i j =
      reproyectar_nearest src Tsrc Tdst i j := by
  unfold procesar_ventana
  split
  · next hskip =>
    exfalso
    obtain ⟨h1, h2, h3, h4⟩ := hreg
    omega
  · dsimp only
    split
    · exact (if_pos hreg).trans (tile_escribe src Tsrc Tdst hsdx hsdy hddx hddy
        _ _ _ _ i j hreg.1 hreg.2.1 hreg.2.2.1 hreg.2.2.2 hval)
    · next hval2 => exact absurd hval hval2

theorem lt_div_succ_mul (i C : ℕ) (h : 0 < C) : i < (i / C + 1) * C := by
  have h1 := Nat.div_add_mod i C
  have h2 := Nat.mod_lt i h
  have h3 : (i / C + 1) * C = C * (i / C) + C := by ring
  omega

theorem region_unica (CHUNK ti tj i j H W : ℕ)
    (h : ti * CHUNK ≤ i ∧ i < min ((ti + 1) * CHUNK) H ∧
         tj * CHUNK ≤ j ∧ j < min ((tj + 1) * CHUNK) W) :
    ti = i / CHUNK ∧ tj = j / CHUNK := by
  obtain ⟨h1, h2, h3, h4⟩ := h
  constructor
  · exact (Nat.div_eq_of_lt_le h1 (lt_of_lt_of_le h2 (min_le_left _ _))).symm
  · exact (Nat.div_eq_of_lt_le h3 (lt_of_lt_of_le h4 (min_le_left _ _))).symm

/-- C7: reprojecting tile-by-tile — fixed-size destination tiles, per-tile
source windows rounded and clamped to the source extent, empty intersections
left missing — yields, at every destination pixel, exactly the value of the
whole-raster single-pass nearest-neighbor reprojection onto the same grid:
the tiling is only a memory device and never changes the result. -/
theorem reproyeccion_ventanas_eq_una_pasada (src : Fuente) (Tsrc Tdst : Transformacion)
    (H W CHUNK : ℕ) (hCH : 0 < CHUNK)
    (hsdx : 0 < Tsrc.dx) (hsdy : 0 < Tsrc.dy) (hddx : 0 < Tdst.dx) (hddy : 0 < Tdst.dy)
    (i j : ℕ) (hi : i < H) (hj : j < W) :
    reproyectar_por_ventanas src Tsrc Tdst H W CHUNK i j =
      reproyectar_nearest src Tsrc Tdst i j := by
  have hobr0 : (i / CHUNK) * CHUNK ≤ i := Nat.div_mul_le_self i CHUNK
  have hobr1 : i < min ((i / CHUNK + 1) * CHUNK) H :=
    lt_min (lt_div_succ_mul i CHUNK hCH) hi
  have hobc0 : (j / CHUNK) * CHUNK ≤ j := Nat.div_mul_le_self j CHUNK
  have hobc1 : j < min ((j / CHUNK + 1) * CHUNK) W :=
    lt_min (lt_div_succ_mul j CHUNK hCH) hj
  have hreg : (i / CHUNK) * CHUNK ≤ i ∧ i < min ((i / CHUNK + 1) * CHUNK) H ∧
      (j / CHUNK) * CHUNK ≤ j ∧ j < min ((j / CHUNK + 1) * CHUNK) W :=
    ⟨hobr0, hobr1, hobc0, hobc1⟩
  have hnh : i / CHUNK < (H + CHUNK - 1) / CHUNK := by
    have h1 : (H + CHUNK - 1) / CHUNK = (H - 1) / CHUNK + 1 := by
      rw [show H + CHUNK - 1 = (H - 1) + CHUNK by omega]
      exact Nat.add_div_right _ hCH
    have h2 : i / CHUNK ≤ (H - 1) / CHUNK := Nat.div_le_div_right (by omega)
    omega
  have hnw : j / CHUNK < (W + CHUNK - 1) / CHUNK := by
    have h1 : (W + CHUNK - 1) / CHUNK = (W - 1) / CHUNK + 1 := by
      rw [show W + CHUNK - 1 = (W - 1) + CHUNK by omega]
      exact Nat.add_div_right _ hCH
    have h2 : j / CHUNK ≤ (W - 1) / CHUNK := Nat.div_le_div_right (by omega)
    omega
  have hmem : (i / CHUNK, j / CHUNK) ∈ ventanas H W CHUNK := by
    rw [ventanas]
    exact List.mem_flatMap.mpr ⟨i / CHUNK, List.mem_range.mpr hnh,
      List.mem_map.mpr ⟨j / CHUNK, List.mem_range.mpr hnw, rfl⟩⟩
  by_cases hval : 0 < (ventana_fuente src Tsrc Tdst ((i / CHUNK) * CHUNK)
      (min ((i / CHUNK + 1) * CHUNK) H) ((j / CHUNK) * CHUNK)
      (min ((j / CHUNK + 1) * CHUNK) W)).width ∧
    0 < (ventana_fuente src Tsrc Tdst ((i / CHUNK) * CHUNK)
      (min ((i / CHUNK + 1) * CHUNK) H) ((j / CHUNK) * CHUNK)
      (min ((j / CHUNK + 1) * CHUNK) W)).height
  · -- the owner tile writes the single-pass value; later tiles keep it
    have hkeep : ∀ (l : List (ℕ × ℕ)) (d : ℕ → ℕ → Option ℚ),
        d i j = reproyectar_nearest src Tsrc Tdst i j →
        (l.foldl (fun dest t =>
          procesar_ventana src Tsrc Tdst H W CHUNK t.1 t.2 dest) d) i j =
          reproyectar_nearest src Tsrc Tdst i j := by
      intro l
      induction l with
      | nil => intro d hd; exact hd
      | cons a l ih =>
        intro d hd
        apply ih
        by_cases hr : a.1 * CHUNK ≤ i ∧ i < min ((a.1 + 1) * CHUNK) H ∧
            a.2 * CHUNK ≤ j ∧ j < min ((a.2 + 1) * CHUNK) W
        · obtain ⟨h1, h2⟩ := region_unica CHUNK a.1 a.2 i j H W hr
          show procesar_ventana src Tsrc Tdst H W CHUNK a.1 a.2 d i j = _
          rw [h1, h2]
          exact procesar_escribe src Tsrc Tdst hsdx hsdy hddx hddy
            H W CHUNK _ _ i j d hreg hval
        · show procesar_ventana src Tsrc Tdst H W CHUNK a.1 a.2 d i j = _
          rw [procesar_no_toca src Tsrc Tdst H W CHUNK a.1 a.2 i j d hr]
          exact hd
    obtain ⟨s, t, hsplit⟩ := List.append_of_mem hmem
    rw [reproyectar_por_ventanas, hsplit, List.foldl_append]
    rw [show List.foldl (fun dest t =>
        procesar_ventana src Tsrc Tdst H W CHUNK t.1 t.2 dest) _ ((i / CHUNK, j / CHUNK) :: t) =
      List.foldl (fun dest t => procesar_ventana src Tsrc Tdst H W CHUNK t.1 t.2 dest)
        (procesar_ventana src Tsrc Tdst H W CHUNK (i / CHUNK) (j / CHUNK)
          (List.foldl (fun dest t => procesar_ventana src Tsrc Tdst H W CHUNK t.1 t.2 dest)
            (fun _ _ => none) s)) t from rfl]
    apply hkeep
    exact procesar_escribe src Tsrc Tdst hsdx hsdy hddx hddy
      H W CHUNK _ _ i j _ hreg hval
  · -- the owner tile is skipped: the pixel stays missing, and so does the
    -- single-pass value
    have htarget : reproyectar_nearest src Tsrc Tdst i j = none :=
      tile_invalido src Tsrc Tdst hsdx hsdy hddx hddy _ _ _ _ i j
        hobr0 hobr1 hobc0 hobc1 hval
    rw [htarget]
    have hnone : ∀ (l : List (ℕ × ℕ)) (d : ℕ → ℕ → Option ℚ),
        d i j = none →
        (l.foldl (fun dest t =>
          procesar_ventana src Tsrc Tdst H W CHUNK t.1 t.2 dest) d) i j = none := by
      intro l
      induction l with
      | nil => intro d hd; exact hd
      | cons a l ih =>
        intro d hd
        apply ih
        by_cases hr : a.1 * CHUNK ≤ i ∧ i < min ((a.1 + 1) * CHUNK) H ∧
            a.2 * CHUNK ≤ j ∧ j < min ((a.2 + 1) * CHUNK) W
        · obtain ⟨h1, h2⟩ := region_unica CHUNK a.1 a.2 i j H W hr
          show procesar_ventana src Tsrc Tdst H W CHUNK a.1 a.2 d i j = none
          rw [h1, h2, procesar_invalido src Tsrc Tdst H W CHUNK _ _ i j d hval]
          exact hd
        · show procesar_ventana src Tsrc Tdst H W CHUNK a.1 a.2 d i j = none
          rw [procesar_no_toca src Tsrc Tdst H W CHUNK a.1 a.2 i j d hr]
          exact hd
    exact hnone (ventanas H W CHUNK) _ rfl

/-- A concrete 2x2 source raster for the C7 witness. -/
def ejemploFuente : Fuente :=
  { alto := 2, ancho := 2
    px := fun r c => if r = 0 ∧ c = 0 then some 7 else some 3 }

/-- A concrete unit transform (left 0, top 2, pixel 1x1). -/
def ejemploT : Transformacion := { left := 0, top := 2, dx := 1, dy := 1 }

/-- Witness for C7: a 2x2 destination processed in 1x1 tiles (every interior
pixel straddles a tile boundary) agrees with the single-pass reprojection. -/
theorem reproyeccion_ventanas_witness :
    (0 : ℕ) < 1 ∧ (0 : ℚ) < ejemploT.dx ∧ (0 : ℚ) < ejemploT.dy ∧ (1 : ℕ) < 2 ∧
    reproyectar_por_ventanas ejemploFuente ejemploT ejemploT 2 2 1 1 1 =
      reproyectar_nearest ejemploFuente ejemploT ejemploT 1 1 :=
  ⟨by decide, by decide, by decide, by decide,
    reproyeccion_ventanas_eq_una_pasada ejemploFuente ejemploT ejemploT 2 2 1
      (by decide) (by decide) (by decide) (by decide) (by decide) 1 1
      (by decide) (by decide)⟩
